import Mathlib

/-!
# Meshery pattern engine: resource builder, dry-run validator, provisioning stage

A shallow embedding of
`server/models/pattern/patterns/k8s/k8s.go` and
`server/models/pattern/stages/provision.go`, followed by the properties proved
about it.

Conventions of the embedding.

* A Go value of type `interface{}` is a `Value`.
* A Go map with string keys is an association list (`Entries`): `lookup` is
  the comma-ok read, `index` the plain read `m[k]` (the nil interface when the
  key is absent), `set` the write `m[k] = v`.  The entries a `range` loop
  visits are `rangeEntries` (one entry per key); the order of the visit is
  not fixed by Go, so loops over a map take the visiting order as an argument.
* A map that the code writes into is an `Option Entries`, `none` being the nil
  map (a write into it aborts the program).
* A Go `error` is an `Option GoErr`, `none` being the nil error.
* A function that can abort (a failed type assertion, a write into a nil map)
  returns an `Option`, `none` being the abort.
-/

namespace Meshery

/-! ## Values and maps -/

/-- Dynamic values held by an `interface{}`. -/
inductive Value where
  | nil : Value
  | str : String → Value
  | bool : Bool → Value
  | num : Int → Value
  | strMap : List (String × String) → Value
  | list : List Value → Value
  | obj : List (String × Value) → Value

/-- Entries of a `map[string]interface{}`. -/
abbrev Entries := List (String × Value)

/-- Entries of a `map[string]string`. -/
abbrev StrEntries := List (String × String)

/-- Comma-ok read `v, ok := m[k]`. -/
def lookup {α : Type} : List (String × α) → String → Option α
  | [], _ => none
  | (k, v) :: rest, key => if k = key then some v else lookup rest key

/-- Plain read `m[k]` of a `map[string]interface{}`: the nil interface when
the key is absent. -/
def index (m : Entries) (key : String) : Value :=
  match lookup m key with
  | some v => v
  | none => Value.nil

/-- Write `m[k] = v`. -/
def set {α : Type} : List (String × α) → String → α → List (String × α)
  | [], key, v => [(key, v)]
  | (k, w) :: rest, key, v =>
    if k = key then (k, v) :: rest else (k, w) :: set rest key v

/-- Keys of a map. -/
def keys {α : Type} (m : List (String × α)) : List String := m.map Prod.fst

/-- Entries visited by `for k, v := range m`: each key once, with the value
the map holds for it. -/
def rangeEntries {α : Type} : List (String × α) → List (String × α)
  | [] => []
  | (k, v) :: rest => (k, v) :: (rangeEntries rest).filter (fun e => !decide (e.1 = k))

/-- Go comparison `x == "s"` of an interface value with a string constant. -/
def Value.eqStr : Value → String → Bool
  | Value.str t, s => decide (t = s)
  | _, _ => false

/-- Go comparison `x == nil` of an interface value. -/
def Value.isNil : Value → Bool
  | Value.nil => true
  | _ => false

/-! ## Component descriptions (`v1beta1.ComponentDefinition`) -/

/-- The typed `Component` field: kind and version of the resource. -/
structure ComponentRef where
  Kind : String
  Version : String

/-- Fields of `ComponentDefinition_Metadata` read by the code. The
additional properties are only read. -/
structure ComponentMetadata where
  IsAnnotation : Bool
  AdditionalProperties : Entries

/-- Fields of `v1beta1.ComponentDefinition` read or written by the code. -/
structure ComponentDefinition where
  Component : ComponentRef
  DisplayName : String
  Metadata : ComponentMetadata
  Configuration : Option Entries

/-- Entries of the configuration map for reading (a nil map reads as empty). -/
def ComponentDefinition.config (comp : ComponentDefinition) : Entries :=
  match comp.Configuration with
  | some m => m
  | none => []

/-! ## Resource builder -/

/-- Test `k == "apiVersion" || k == "kind" || k == "metadata"`. -/
def isReservedKey (k : String) : Bool :=
  decide (k = "apiVersion") || decide (k = "kind") || decide (k = "metadata")

/-- The map literal `component` starts from. -/
def initialResource (comp : ComponentDefinition) : Entries :=
  [ ("apiVersion", Value.str comp.Component.Version),
    ("kind", Value.str comp.Component.Kind),
    ("metadata", Value.obj
      [ ("name", Value.str comp.DisplayName),
        ("annotations", index comp.Metadata.AdditionalProperties "annotations"),
        ("labels", index comp.Metadata.AdditionalProperties "labels") ]) ]

/-- Body of the loop over the configuration. -/
def copyEntry (component : Entries) (e : String × Value) : Entries :=
  if isReservedKey e.1 then component else set component e.1 e.2

/-- The function `createK8sResourceStructure`, for a given order `visit` in
which the `range` loop yields the configuration entries. -/
def createK8sResourceStructureIn (comp : ComponentDefinition)
    (visit : List (String × Value)) : Entries :=
  visit.foldl copyEntry (initialResource comp)

/-- The function `createK8sResourceStructure`, the loop visiting the entries
in the order in which the association list stores them. -/
def createK8sResourceStructure (comp : ComponentDefinition) : Entries :=
  createK8sResourceStructureIn comp (rangeEntries comp.config)


/-! ## Errors -/

/-- Non-nil values of the Go `error` interface, by dynamic type.
`statusError` and `unexpectedObjectError` are the two error types of
`k8s.io/apimachinery/pkg/api/errors` that `dryRun` switches on; `errorf` is an
error made by `fmt.Errorf`; `errDryRun` and `errMarshal` are the repository's
error kinds built by `ErrDryRun` and `models.ErrMarshal`; `other` stands for
an error of any other type. -/
inductive GoErr where
  | errorf (msg : String)
  | statusError (msg : String)
  | unexpectedObjectError (msg : String)
  | other (msg : String)
  | errDryRun (cause : GoErr) (obj : String)
  | errMarshal (cause : Option GoErr) (obj : String)

/-- Modelled from the spec: `ErrDryRun(err, obj)`, declared in a file of the
package that is not among the listed sources, builds a `DryRunError` carrying
a descriptive message; the model keeps both arguments. -/
def ErrDryRun (err : GoErr) (obj : String) : GoErr := GoErr.errDryRun err obj

/-- Modelled from the spec: `models.ErrMarshal(err, obj)`, declared in a file
that is not among the listed sources, builds a `MarshalError`; the model keeps
both arguments. -/
def ErrMarshal (err : Option GoErr) (obj : String) : GoErr := GoErr.errMarshal err obj

/-- Modelled from the spec: the text `err.Error()`. An error made by
`fmt.Errorf` or by the cluster client carries its text; for the repository's
two error kinds, whose `Error` method is declared outside the listed sources,
the text is the descriptive message given to the constructor. -/
def GoErr.Error : GoErr → String
  | GoErr.errorf msg => msg
  | GoErr.statusError msg => msg
  | GoErr.unexpectedObjectError msg => msg
  | GoErr.other msg => msg
  | GoErr.errDryRun _ obj => obj
  | GoErr.errMarshal _ obj => obj

/-- Type switch case `*errors.StatusError`. -/
def GoErr.isStatusError : GoErr → Bool
  | GoErr.statusError _ => true
  | _ => false

/-- Type switch case `*errors.UnexpectedObjectError`. -/
def GoErr.isUnexpectedObjectError : GoErr → Bool
  | GoErr.unexpectedObjectError _ => true
  | _ => false

/-- The error is a `DryRunError`. -/
def GoErr.isDryRunError : GoErr → Bool
  | GoErr.errDryRun _ _ => true
  | _ => false

/-- The error is a `MarshalError`. -/
def GoErr.isMarshalError : GoErr → Bool
  | GoErr.errMarshal _ _ => true
  | _ => false

/-! ## Go library functions used by the code

`fmt.Sprintf` with `%s` operands that are strings is written as string
concatenation at its call sites. `fmt.Errorf` is called with a format and no
operand; `sprintfNoArgs` follows `fmt.(*pp).doPrintf` for an empty operand
list. -/

/-- The function `fmt.parsenum` on the text between `start` and `end`: the
number read, whether a digit was read, and how many characters the new
position is past `start` (all of them when the number is too large). -/
def parsenumAux : List Char → Nat → Bool → Nat → Nat × Bool × Nat
  | [], num, isnum, n => (num, isnum, n)
  | c :: cs, num, isnum, n =>
    if '0' ≤ c ∧ c ≤ '9' then
      if num > 1000000 then (0, false, n + (c :: cs).length)
      else parsenumAux cs (num * 10 + (c.toNat - 48)) true (n + 1)
    else (num, isnum, n)

/-- The function `fmt.parsenum`. -/
def parsenum (seg : List Char) : Nat × Bool × Nat := parsenumAux seg 0 false 0

/-- The function `fmt.parseArgNumber` on a text that starts with `[`: the
width of the bracketed index and whether it is well formed. -/
def parseArgNumber (s : List Char) : Nat × Bool :=
  if s.length < 3 then (1, false)
  else
    let inner := (s.drop 1).takeWhile (fun c => !decide (c = ']'))
    if inner.length = (s.drop 1).length then (1, false)
    else
      match parsenum inner with
      | (_, ok, n) =>
        if !ok || !decide (n = inner.length) then (inner.length + 2, false)
        else (inner.length + 2, true)

/-- The method `argNumber` with no operand: the text after an argument index,
whether an index was found, and the flag `goodArgNum` (an index is never in
range when there is no operand). -/
def argNumber (s : List Char) (good : Bool) : List Char × Bool × Bool :=
  match s with
  | '[' :: _ =>
    match parseArgNumber s with
    | (wid, ok) => (s.drop wid, ok, false)
  | _ => (s, false, good)

/-- One verb of `doPrintf` with no operand, on the text after the `%` sign:
the text written and the rest of the format. -/
def formatVerb (afterPercent : List Char) : List Char × List Char :=
  -- flags
  let s0 := afterPercent.dropWhile (fun c => decide (c = '#') || decide (c = '0')
    || decide (c = '+') || decide (c = '-') || decide (c = ' '))
  -- explicit argument index
  match argNumber s0 true with
  | (s1, afterIndex1, good1) =>
    -- width
    let w : List Char × Bool × Bool × List Char :=
      match s1 with
      | '*' :: t => (t, false, good1, "%!(BADWIDTH)".data)
      | _ =>
        match parsenum s1 with
        | (_, present, n) => (s1.drop n, afterIndex1, good1 && !(afterIndex1 && present), [])
    match w with
    | (s2, afterIndex2, good2, out2) =>
      -- precision
      let p : List Char × Bool × Bool × List Char :=
        match s2 with
        | '.' :: t =>
          match argNumber t (good2 && !afterIndex2) with
          | (t1, afterIndex3, good3) =>
            match t1 with
            | '*' :: t2 => (t2, false, good3, out2 ++ "%!(BADPREC)".data)
            | _ =>
              match parsenum t1 with
              | (_, _, n) => (t1.drop n, afterIndex3, good3, out2)
        | _ => (s2, afterIndex2, good2, out2)
      match p with
      | (s3, afterIndex4, good4, out4) =>
        let a : List Char × Bool × Bool :=
          if afterIndex4 then (s3, afterIndex4, good4) else argNumber s3 good4
        match a with
        | (s5, _, good5) =>
          match s5 with
          | [] => (out4 ++ "%!(NOVERB)".data, [])
          | verb :: rest =>
            if verb = '%' then (out4 ++ ['%'], rest)
            else if !good5 then (out4 ++ "%!".data ++ [verb] ++ "(BADINDEX)".data, rest)
            else (out4 ++ "%!".data ++ [verb] ++ "(MISSING)".data, rest)

/-- The loop of `doPrintf` with no operand; `fuel` bounds the number of verbs. -/
def sprintfLoop : Nat → List Char → List Char
  | 0, _ => []
  | fuel + 1, format =>
    let lit := format.takeWhile (fun c => !decide (c = '%'))
    match format.dropWhile (fun c => !decide (c = '%')) with
    | [] => lit
    | _ :: afterPercent =>
      match formatVerb afterPercent with
      | (out, rest) => lit ++ out ++ sprintfLoop fuel rest

/-- The text `fmt.Sprintf(format)` formats when it is given no operand. -/
def sprintfNoArgs (format : String) : String :=
  String.mk (sprintfLoop (format.length + 1) format.data)

/-- The error `fmt.Errorf(format)` makes when it is given no operand. -/
def fmtErrorf (format : String) : GoErr := GoErr.errorf (sprintfNoArgs format)

/-- The function `strings.Split(s, sep)` for a separator of one character. -/
def stringsSplit (sep : Char) : List Char → List (List Char)
  | [] => [[]]
  | c :: cs =>
    if c = sep then [] :: stringsSplit sep cs
    else
      match stringsSplit sep cs with
      | [] => [[c]]
      | p :: ps => (c :: p) :: ps

/-- The function `strings.Join(elems, sep)`. -/
def stringsJoin : List String → String → String
  | [], _ => ""
  | [s], _ => s
  | s :: t :: rest, sep => s ++ sep ++ stringsJoin (t :: rest) sep

/-- Bytes of a request or response body. -/
abbrev Bytes := List UInt8

/-- Library functions whose code is outside the repository and whose result
the properties below do not depend on: `strings.ToLower`, `json.Marshal` of a
resource map and `json.Unmarshal` of a response body into a
`map[string]interface{}` (the map it leaves in `status`, nil when the body is
the JSON `null`, and its error). -/
structure Lib where
  toLower : String → String
  jsonMarshal : Entries → Bytes × Option GoErr
  jsonUnmarshal : Bytes → Option Entries × Option GoErr

/-! ## Dry-run validator -/

/-- Request assembled on the REST client by `dryRun`. -/
structure Request where
  verb : String
  absPath : String
  body : Bytes
  headers : List (String × String)
  params : List (String × String)

/-- The REST client: what `req.Do(ctx)` followed by `res.Raw()` returns for a
request, the raw body and the error. -/
abbrev RestClient := Request → Bytes × Option GoErr

/-- Results `(st, success, err)` of `dryRun` and `formatDryRunResponse`. -/
structure DryRunResult where
  st : Option Entries
  success : Bool
  err : Option GoErr

/-- Plain read `status[k]` of a map that may be nil. -/
def indexOpt (status : Option Entries) (key : String) : Value :=
  match status with
  | some m => index m key
  | none => Value.nil

/-- The function `kindToResource`. -/
def kindToResource (L : Lib) (kind : String) : String :=
  L.toLower kind ++ "s"

/-- The function `formatDryRunResponse`. -/
def formatDryRunResponse (L : Lib) (resp : Bytes) (err : Option GoErr) : DryRunResult :=
  match L.jsonUnmarshal resp with
  | (status, some e) =>
    { st := status, success := false,
      err := some (ErrMarshal err
        ("cannot serialize Status object from the server: " ++ e.Error)) }
  | (status, none) =>
    let meshkiterr : Option GoErr :=
      if status.isNone || (indexOpt status "kind").isNil then
        some (ErrDryRun (fmtErrorf "nil response to dry run request to Kubernetes") "")
      else none
    if (indexOpt status "status").eqStr "Failure" then
      { st := status, success := false, err := meshkiterr }
    else
      { st := status, success := true, err := meshkiterr }

/-- The path `dryRun` builds from the API version, the namespace and the kind. -/
def dryRunPath (L : Lib) (aV : String) (nspace : String) (kind : String) : String :=
  let apiString := if (stringsSplit '/' aV.data).length > 1 then "api" ++ "s" else "api"
  if nspace ≠ "" then
    "/" ++ apiString ++ "/" ++ aV ++ "/namespaces/" ++ nspace ++ "/" ++ kindToResource L kind
  else
    "/" ++ apiString ++ "/" ++ aV ++ "/" ++ kindToResource L kind

/-- The request `dryRun` assembles for a path and a body. -/
def dryRunRequest (path : String) (data : Bytes) : Request :=
  { verb := "POST", absPath := path, body := data,
    headers := [("Content-Type", "application/json"), ("Accept", "application/json")],
    params := [("dryRun", "All"), ("fieldValidation", "Strict"), ("fieldManager", "meshery")] }

/-- The function `dryRun`: its results (`none` when a type assertion aborts)
and the requests it issued on the REST client. -/
def dryRun (L : Lib) (rClient : RestClient) (k8sResource : Entries) (nspace : String) :
    Option DryRunResult × List Request :=
  if (index k8sResource "kind").eqStr "" || (index k8sResource "apiVersion").eqStr "" then
    (some { st := none, success := false,
            err := some (ErrDryRun (fmtErrorf "invalid resource or namespace not provided")
              "\"kind\" and \"apiVersion\" cannot be empty") }, [])
  else
    match index k8sResource "apiVersion" with
    | Value.str aV =>
      match index k8sResource "kind" with
      | Value.str kind =>
        let path := dryRunPath L aV nspace kind
        match L.jsonMarshal k8sResource with
        | (_, some e) =>
          (some { st := none, success := false, err := some (ErrMarshal (some e) "k8s resource") },
            [])
        | (data, none) =>
          let req := dryRunRequest path data
          match rClient req with
          | (resp, some (GoErr.statusError m)) =>
            (some (formatDryRunResponse L resp (some (GoErr.statusError m))), [req])
          | (resp, some (GoErr.unexpectedObjectError m)) =>
            (some (formatDryRunResponse L resp (some (GoErr.unexpectedObjectError m))), [req])
          | (_, err) => (some { st := none, success := false, err := err }, [req])
      | _ => (none, [])
    | _ => (none, [])

/-! ## Provisioning stage -/

/-- A routing target (`v1beta1.Connection`), identified by its id. -/
abbrev Connection := String

/-- The type `CompConfigPair`; `Hosts` is a `map[v1beta1.Connection]bool`. -/
structure CompConfigPair where
  Component : ComponentDefinition
  Hosts : List (Connection × Bool)

/-- The constant `ProvisionSuffixKey`. -/
def ProvisionSuffixKey : String := ".isProvisioned"

/-- Fields of `v1beta1.PatternFile` used by the stage; `Id` is the text of
`pattern.Id.String()`. -/
structure PatternFile where
  Name : String
  Id : String
  Components : List ComponentDefinition

/-- Modelled from the spec: the plan of the `planner` package (not among the
listed sources): a feasibility predicate and an execution primitive that
invokes the callback once for each scheduled component, whatever the callback
returns for the others. `schedule` lists the components in the order in which
`Execute` hands them to the callback. -/
structure Plan where
  IsFeasible : Bool
  schedule : List (String × ComponentDefinition)

/-- What the stage does to its collaborators, in order: a call of
`act.Terminate`, a call of `act.Provision`, a call of `next` (with the merged
error). -/
inductive Event where
  | terminate (err : GoErr)
  | provision (ccp : CompConfigPair)
  | next (err : Option GoErr)

/-- Capabilities the stage consumes. `Provision` is the injected provisioning
action, which may depend on and change a state of its own; `GetRegistrant` is
the registry lookup; `AssignAdditionalLabels` is `core.AssignAdditionalLabels`;
`CreatePlan` is `planner.CreatePlan`; `MesheryAnnotationPrefix` is the constant
of that name; `IsDelete` is `prov.IsDelete()`. -/
structure Env (σ : Type) where
  Provision : σ → CompConfigPair → (String × Option GoErr) × σ
  GetRegistrant : ComponentDefinition → Connection
  AssignAdditionalLabels : ComponentDefinition → ComponentDefinition
  CreatePlan : PatternFile → Bool → Plan × Option GoErr
  MesheryAnnotationPrefix : String
  IsDelete : Bool

/-- State the stage works on: the state of the provisioning action, the
pattern `*data.Pattern`, the Result Store `data.Other` (`none` is the nil
map), the local slice `errs`, the calls made so far, and whether the program
has aborted. -/
structure StageState (σ : Type) where
  act : σ
  pattern : PatternFile
  other : Option Entries
  errs : List GoErr
  events : List Event
  aborted : Bool

/-- The function `processAnnotations`: the loop appends to `components` every
component that is not marked as an annotation. -/
def processAnnotations (pattern : PatternFile) : PatternFile :=
  { pattern with
    Components := pattern.Components.foldl
      (fun components component =>
        if !component.Metadata.IsAnnotation then components ++ [component] else components)
      [] }

/-- The function `generateHosts`. -/
def generateHosts (cd : ComponentDefinition) (getRegistrant : ComponentDefinition → Connection) :
    List (Connection × Bool) :=
  [(getRegistrant cd, true)]

/-- The function `mergeErrors`. -/
def mergeErrors (errs : List GoErr) : Option GoErr :=
  if errs.length = 0 then none
  else some (fmtErrorf (stringsJoin (errs.map GoErr.Error) "\n"))

/-- The function `getAdditionalAnnotations`. -/
def getAdditionalAnnotations (annotationPrefix : String) (pattern : PatternFile) : StrEntries :=
  set (set [] (annotationPrefix ++ ".name") pattern.Name) (annotationPrefix ++ ".id") pattern.Id

/-- The call `utils.Cast[map[string]string](val)`: the asserted map, or the
nil map (which reads as empty) when the value has another type. -/
def castStrMap : Value → StrEntries
  | Value.strMap m => m
  | _ => []

/-- Modelled from the spec: `helpers.MergeStringMaps` (not among the listed
sources) copies the entries of each map in turn into a fresh map, so that a
later map overrides an earlier one. -/
def MergeStringMaps (maps : List StrEntries) : StrEntries :=
  maps.foldl (fun res mp => (rangeEntries mp).foldl (fun r e => set r e.1 e.2) res) []

/-- The callback handed to `plan.Execute`. -/
def provisionCallback {σ : Type} (E : Env σ) (s : StageState σ) (name : String)
    (component0 : ComponentDefinition) : StageState σ × Bool :=
  let component := E.AssignAdditionalLabels component0
  let hosts := generateHosts component E.GetRegistrant
  let annotations := castStrMap (index component.config "annotations")
  match component.Configuration with
  | none => ({ s with aborted := true }, false)
  | some cfg =>
    let merged := MergeStringMaps
      [annotations, getAdditionalAnnotations E.MesheryAnnotationPrefix s.pattern]
    let ccp : CompConfigPair :=
      { Component := { component with Configuration := some (set cfg "annotations" (Value.strMap merged)) },
        Hosts := hosts }
    match E.Provision s.act ccp with
    | ((_, some err), act1) =>
      ({ s with act := act1, events := s.events ++ [Event.provision ccp],
                errs := s.errs ++ [err] }, false)
    | ((msg, none), act1) =>
      match s.other with
      | none =>
        ({ s with act := act1, events := s.events ++ [Event.provision ccp], aborted := true },
          false)
      | some other =>
        ({ s with act := act1, events := s.events ++ [Event.provision ccp],
                  other := some (set other (name ++ ProvisionSuffixKey) (Value.str msg)) }, true)

/-- Modelled from the spec: `plan.Execute` (not among the listed sources)
invokes the callback once per scheduled component and goes on after a
component has failed; nothing more runs once the program has aborted. -/
def Plan.Execute {σ : Type} (plan : Plan)
    (cb : StageState σ → String → ComponentDefinition → StageState σ × Bool)
    (s : StageState σ) : StageState σ :=
  plan.schedule.foldl (fun st e => if st.aborted then st else (cb st e.1 e.2).1) s

/-- The stage function returned by `Provision`, applied to the request data,
the error of the previous stage and `next` (`hasNext` tells whether `next` is
non-nil). -/
def Provision {σ : Type} (E : Env σ) (s : StageState σ) (err : Option GoErr) (hasNext : Bool) :
    StageState σ :=
  match err with
  | some e => { s with events := s.events ++ [Event.terminate e] }
  | none =>
    let s1 := { s with pattern := processAnnotations s.pattern }
    match E.CreatePlan s1.pattern E.IsDelete with
    | (_, some e) => { s1 with events := s1.events ++ [Event.terminate e] }
    | (plan, none) =>
      if !plan.IsFeasible then
        { s1 with events := s1.events ++
            [Event.terminate (fmtErrorf "infeasible execution: detected cycle in the plan")] }
      else
        let s2 := plan.Execute (provisionCallback E) { s1 with errs := [] }
        if s2.aborted then s2
        else if hasNext then { s2 with events := s2.events ++ [Event.next (mergeErrors s2.errs)] }
        else s2

/-! ## The path as the specification words it -/

/-- The path of the dry-run request as the specification gives it: the root is
`apis` when the API version contains a slash and `api` otherwise, the resource
segment is the lower-cased kind followed by `s`, and the path is
namespace-scoped exactly when a namespace is given. -/
def specPath (lower : String → String) (aV nspace kind : String) : String :=
  let root := if '/' ∈ aV.data then "apis" else "api"
  if nspace ≠ "" then
    "/" ++ root ++ "/" ++ aV ++ "/namespaces/" ++ nspace ++ "/" ++ lower kind ++ "s"
  else
    "/" ++ root ++ "/" ++ aV ++ "/" ++ lower kind ++ "s"

/-! ## Example inputs -/

/-- Lower-casing of the ASCII letters, with which `strings.ToLower` agrees on
ASCII text. -/
def asciiToLower (s : String) : String := String.mk (s.data.map Char.toLower)

/-- Bytes of the JSON text of an object whose only member is `kind`, with the
value `Pod`. -/
def podBody : Bytes := [123, 34, 107, 105, 110, 100, 34, 58, 34, 80, 111, 100, 34, 125]

/-- Bytes of the JSON text of an object with `kind` equal to `Status` and
`status` equal to `Failure`. -/
def failureBody : Bytes :=
  [123, 34, 107, 105, 110, 100, 34, 58, 34, 83, 116, 97, 116, 117, 115, 34, 44, 34, 115, 116,
    97, 116, 117, 115, 34, 58, 34, 70, 97, 105, 108, 117, 114, 101, 34, 125]

/-- Bytes of the JSON text of the empty object. -/
def emptyObjectBody : Bytes := [123, 125]

/-- Bytes of the JSON text `null`. -/
def nullBody : Bytes := [110, 117, 108, 108]

/-- Library functions for the examples: ASCII lower-casing, a marshaller that
yields `podBody`, and the decoding of the four bodies above (any other body
is rejected). -/
def exampleLib : Lib :=
  { toLower := asciiToLower,
    jsonMarshal := fun _ => (podBody, none),
    jsonUnmarshal := fun body =>
      if body = podBody then (some [("kind", Value.str "Pod")], none)
      else if body = failureBody then
        (some [("kind", Value.str "Status"), ("status", Value.str "Failure")], none)
      else if body = emptyObjectBody then (some [], none)
      else if body = nullBody then (none, none)
      else (none, some (GoErr.other "invalid character")) }

/-- A Pod with a namespace, a `spec` and a stray `kind` in its configuration. -/
def examplePod : ComponentDefinition :=
  { Component := { Kind := "Pod", Version := "v1" },
    DisplayName := "web",
    Metadata := { IsAnnotation := false,
                  AdditionalProperties := [("labels", Value.strMap [("app", "web")])] },
    Configuration := some
      [ ("namespace", Value.str "default"),
        ("kind", Value.str "Service"),
        ("spec", Value.obj [("restartPolicy", Value.str "Always")]) ] }

/-- The resource of a Pod of API version `v1`. -/
def podResource : Entries := [("apiVersion", Value.str "v1"), ("kind", Value.str "Pod")]

/-- The resource of a Deployment of API version `apps/v1`. -/
def deploymentResource : Entries :=
  [("apiVersion", Value.str "apps/v1"), ("kind", Value.str "Deployment")]

/-- A resource whose kind is the empty string. -/
def emptyKindResource : Entries := [("apiVersion", Value.str "v1"), ("kind", Value.str "")]

/-- A client whose dry run is accepted: the body of the created object and no
error. -/
def acceptingClient : RestClient := fun _ => (podBody, none)

/-- A client whose dry run is rejected with a status error. -/
def rejectingClient : RestClient := fun _ => (failureBody, some (GoErr.statusError "Failure"))

/-- A client whose request fails in transport. -/
def brokenClient : RestClient := fun _ => ([], some (GoErr.other "connection refused"))

/-! ## Reading the calls of the stage -/

/-- The call is a call of the provisioning action. -/
def Event.isProvision : Event → Bool
  | Event.provision _ => true
  | _ => false

/-- The call is a call of `act.Terminate`. -/
def Event.isTerminate : Event → Bool
  | Event.terminate _ => true
  | _ => false

/-- The errors handed to `next`, one for each call of `next`. -/
def nextErrors : List Event → List (Option GoErr)
  | [] => []
  | Event.next err :: rest => err :: nextErrors rest
  | _ :: rest => nextErrors rest

/-- The text of an error that may be nil (`none` for the nil error). -/
def errorText (err : Option GoErr) : Option String := err.map GoErr.Error

/-! ## Example inputs of the stage -/

/-- A component named `db`. -/
def exampleDb : ComponentDefinition :=
  { Component := { Kind := "StatefulSet", Version := "apps/v1" },
    DisplayName := "db",
    Metadata := { IsAnnotation := false, AdditionalProperties := [] },
    Configuration := some [("namespace", Value.str "default")] }

/-- A pattern of the two components `web` and `db`. -/
def examplePattern : PatternFile :=
  { Name := "shop", Id := "0f0e0d0c-0b0a-0908-0706-050403020100",
    Components := [examplePod, exampleDb] }

/-- Capabilities for the examples. The provisioning action counts its calls
in its state; it fails on the component `db` with the message
`disk 100% full` and succeeds on every other component. The planner schedules
the components of the pattern in their order; the plan is feasible exactly
when `feasible` is set, and plan creation fails when `planError` is given. -/
def exampleEnv (feasible : Bool) (planError : Option GoErr) : Env Nat :=
  { Provision := fun calls ccp =>
      if ccp.Component.DisplayName = "db" then
        (("", some (GoErr.other "disk 100% full")), calls + 1)
      else (("provisioned", none), calls + 1),
    GetRegistrant := fun _ => "kubernetes",
    AssignAdditionalLabels := fun c => c,
    CreatePlan := fun pattern _ =>
      ({ IsFeasible := feasible,
         schedule := pattern.Components.map (fun c => (c.DisplayName, c)) }, planError),
    MesheryAnnotationPrefix := "design.meshery.io",
    IsDelete := false }

/-- The state in which the examples enter the stage: no call made yet and an
empty Result Store. -/
def exampleState : StageState Nat :=
  { act := 0, pattern := examplePattern, other := some [], errs := [], events := [],
    aborted := false }

/-! ## Manifest applier and dry-run helper -/

/-- The call `utils.Cast[string](val)`: the asserted string and a nil error,
or the empty string and the error of the failed assertion (`castError`, the
error the library makes for the value). -/
def castString (castError : Value → GoErr) : Value → String × Option GoErr
  | Value.str s => (s, none)
  | v => ("", some (castError v))

/-- The call `_errors.Wrapf(err, msg)` with no operand: an error whose text
is the message, a colon and the text of the cause. -/
def errorsWrapf (err : GoErr) (msg : String) : GoErr :=
  GoErr.other (msg ++ ": " ++ err.Error)

/-- The type `meshkube.ApplyOptions`, with the fields `Deploy` sets. -/
structure ApplyOptions where
  Namespace : String
  Update : Bool
  Delete : Bool

/-- One call of `kubeClient.ApplyManifest`. -/
structure ApplyCall where
  manifest : Bytes
  options : ApplyOptions

/-- Capabilities `Deploy` and `DryRunHelper` consume and whose code is not
among the listed sources: `yaml.Marshal` of the resource; the error
`utils.Cast` makes; the apply/delete primitive `kubeClient.ApplyManifest`;
`isErrKubeStatusErr`; `json.Marshal` of an error; the translation
`formatKubeStatusErrToMeshkitErr`; and `meshkube.ErrApplyManifest`. -/
structure DeployEnv where
  yamlMarshal : Entries → Bytes × Option GoErr
  castError : Value → GoErr
  ApplyManifest : Bytes → ApplyOptions → Option GoErr
  isErrKubeStatusErr : GoErr → Bool
  jsonMarshalErr : GoErr → Bytes
  formatKubeStatusErrToMeshkitErr : Bytes → String → Option GoErr
  ErrApplyManifest : GoErr → GoErr

/-- The function `Deploy`: the error it returns and the calls of
`ApplyManifest` it makes. -/
def Deploy (D : DeployEnv) (comp : ComponentDefinition) (isDel : Bool) :
    Option GoErr × List ApplyCall :=
  let resource := createK8sResourceStructure comp
  match D.yamlMarshal resource with
  | (_, some err) => (some err, [])
  | (manifest, none) =>
    match castString D.castError (index comp.config "namespace") with
    | (_, some err) =>
      (some (errorsWrapf err "unable to extract namespace from component configuration"), [])
    | (nspace, none) =>
      let options : ApplyOptions := { Namespace := nspace, Update := true, Delete := isDel }
      match D.ApplyManifest manifest options with
      | some err =>
        if D.isErrKubeStatusErr err then
          (D.formatKubeStatusErrToMeshkitErr (D.jsonMarshalErr err) comp.DisplayName,
            [{ manifest := manifest, options := options }])
        else
          (some (D.ErrApplyManifest err), [{ manifest := manifest, options := options }])
      | none => (none, [{ manifest := manifest, options := options }])

/-- The function `DryRunHelper`, on the REST client of the cluster client. -/
def DryRunHelper (L : Lib) (castError : Value → GoErr) (rClient : RestClient)
    (comp : ComponentDefinition) : Option DryRunResult × List Request :=
  let resource := createK8sResourceStructure comp
  match lookup comp.config "namespace" with
  | some v =>
    match castString castError v with
    | (_, some err) =>
      (some { st := none, success := false,
              err := some (errorsWrapf err
                "unable to extract namespace from component configuration") }, [])
    | (nspace, none) => dryRun L rClient resource nspace
  | none => dryRun L rClient resource ""

/-! ## Annotations handed to the provisioning action -/

/-- The annotations the callback writes into a component: the existing
annotations, when they are a `map[string]string`, merged with the two
annotations of the pattern. -/
def mergedAnnotations (annotationPrefix : String) (pattern : PatternFile)
    (component : ComponentDefinition) : StrEntries :=
  MergeStringMaps
    [castStrMap (index component.config "annotations"),
      getAdditionalAnnotations annotationPrefix pattern]

/-- The pair the callback hands to the provisioning action for a scheduled
component; `none` when the configuration is the nil map and the write into it
aborts. -/
def handedPair {σ : Type} (E : Env σ) (pattern : PatternFile)
    (component0 : ComponentDefinition) : Option CompConfigPair :=
  match (E.AssignAdditionalLabels component0).Configuration with
  | none => none
  | some cfg =>
    some
      { Component :=
          { E.AssignAdditionalLabels component0 with
            Configuration := some (set cfg "annotations"
              (Value.strMap (mergedAnnotations E.MesheryAnnotationPrefix pattern
                (E.AssignAdditionalLabels component0)))) },
        Hosts := generateHosts (E.AssignAdditionalLabels component0) E.GetRegistrant }

/-- What the provisioning action returned for a scheduled component. -/
structure ActionResult where
  name : String
  ccp : CompConfigPair
  msg : String
  err : Option GoErr

/-- The results of the provisioning action on the scheduled components, in
the order of the schedule, from the state `act` of the action, up to the first
component whose configuration is the nil map. -/
def actionResults {σ : Type} (E : Env σ) (pattern : PatternFile) :
    σ → List (String × ComponentDefinition) → List ActionResult
  | _, [] => []
  | act, (name, component0) :: rest =>
    match handedPair E pattern component0 with
    | none => []
    | some ccp =>
      { name := name, ccp := ccp,
        msg := (E.Provision act ccp).1.1, err := (E.Provision act ccp).1.2 }
        :: actionResults E pattern (E.Provision act ccp).2 rest

/-- The components whose provisioning action succeeded, with the message it
returned. -/
def successes (results : List ActionResult) : List (String × String) :=
  results.filterMap (fun r =>
    match r.err with
    | none => some (r.name, r.msg)
    | some _ => none)

/-- The names of the components whose provisioning action failed. -/
def failures (results : List ActionResult) : List String :=
  results.filterMap (fun r =>
    match r.err with
    | none => none
    | some _ => some r.name)

/-- The Result Store updated with the entry `<name>.isProvisioned -> msg` of
each listed success. -/
def storeAfter (store : Entries) (succ : List (String × String)) : Entries :=
  succ.foldl (fun m e => set m (e.1 ++ ProvisionSuffixKey) (Value.str e.2)) store

/-! ## Further example inputs -/

/-- Capabilities of `Deploy` for the examples: the manifest is `podBody`, the
apply primitive accepts every call. -/
def exampleDeployEnv : DeployEnv :=
  { yamlMarshal := fun _ => (podBody, none),
    castError := fun _ => GoErr.other "type assertion failed",
    ApplyManifest := fun _ _ => none,
    isErrKubeStatusErr := GoErr.isStatusError,
    jsonMarshalErr := fun _ => emptyObjectBody,
    formatKubeStatusErrToMeshkitErr := fun _ name => some (GoErr.other name),
    ErrApplyManifest := fun err => GoErr.other ("apply manifest: " ++ err.Error) }

/-- A component with no configuration entry `namespace`. -/
def exampleNoNamespace : ComponentDefinition :=
  { Component := { Kind := "Namespace", Version := "v1" },
    DisplayName := "shop",
    Metadata := { IsAnnotation := false, AdditionalProperties := [] },
    Configuration := some [("annotations", Value.strMap [("team", "shop")])] }

/-- A component whose configuration entry `namespace` is a number. -/
def exampleBadNamespace : ComponentDefinition :=
  { Component := { Kind := "Pod", Version := "v1" },
    DisplayName := "odd",
    Metadata := { IsAnnotation := false, AdditionalProperties := [] },
    Configuration := some [("namespace", Value.num 7)] }

/-- An annotation-only component. -/
def exampleNote : ComponentDefinition :=
  { Component := { Kind := "Comment", Version := "v1" },
    DisplayName := "note",
    Metadata := { IsAnnotation := true, AdditionalProperties := [] },
    Configuration := none }

/-- The state of the examples with an entry of an earlier run in the Result
Store, under the key of the component `db`. -/
def exampleStateWithStore : StageState Nat :=
  { act := 0, pattern := examplePattern,
    other := some [("db.isProvisioned", Value.str "earlier")],
    errs := [], events := [], aborted := false }

/-- The results of the provisioning action in a run of the stage from the
state `s` with the plan `plan`: the callback sees the pattern after
`processAnnotations`. -/
def stageResults {σ : Type} (E : Env σ) (s : StageState σ) (plan : Plan) : List ActionResult :=
  actionResults E (processAnnotations s.pattern) s.act plan.schedule

/-- A pattern with the annotation-only component `note` between `web` and
`db`. -/
def exampleAnnotatedPattern : PatternFile :=
  { Name := "shop", Id := "0f0e0d0c-0b0a-0908-0706-050403020100",
    Components := [examplePod, exampleNote, exampleDb] }

/-! ## Association-list lemmas -/

theorem lookup_set {α : Type} (m : List (String × α)) (k k2 : String) (v : α) :
    lookup (set m k v) k2 = if k = k2 then some v else lookup m k2 := by
  induction m with
  | nil => simp [set, lookup]
  | cons e rest ih =>
    obtain ⟨k0, w⟩ := e
    by_cases h0 : k0 = k
    · subst h0
      by_cases h2 : k0 = k2
      · simp [set, lookup, h2]
      · simp [set, lookup, h2]
    · by_cases h2 : k0 = k2
      · subst h2
        have hk : ¬ k = k0 := fun h => h0 h.symm
        simp [set, lookup, h0, hk]
      · simp [set, lookup, h0, h2, ih]

theorem lookup_isSome_iff_mem_keys {α : Type} (m : List (String × α)) (k : String) :
    (lookup m k).isSome = true ↔ k ∈ keys m := by
  induction m with
  | nil => simp [lookup, keys]
  | cons e rest ih =>
    obtain ⟨k0, w⟩ := e
    by_cases h : k0 = k
    · simp [lookup, keys, h]
    · have hk : ¬ k = k0 := fun h2 => h h2.symm
      simp only [lookup, h, if_false, ih]
      simp [keys, hk]

theorem lookup_eq_none_of_not_mem {α : Type} (m : List (String × α)) (k : String)
    (h : k ∉ keys m) : lookup m k = none := by
  have := (lookup_isSome_iff_mem_keys m k).not.mpr h
  cases hl : lookup m k with
  | none => rfl
  | some v => simp [hl] at this

theorem lookup_filter_ne {α : Type} (m : List (String × α)) (k k2 : String) (h : k2 ≠ k) :
    lookup (m.filter (fun e => !decide (e.1 = k))) k2 = lookup m k2 := by
  induction m with
  | nil => rfl
  | cons e rest ih =>
    obtain ⟨k0, w⟩ := e
    by_cases h0 : k0 = k
    · subst h0
      have : ¬ k0 = k2 := fun h2 => h h2.symm
      simp [List.filter, lookup, this, ih]
    · by_cases h2 : k0 = k2
      · subst h2
        simp [List.filter, lookup, h0]
      · simp [List.filter, lookup, h0, h2, ih]

theorem lookup_rangeEntries {α : Type} (m : List (String × α)) (k : String) :
    lookup (rangeEntries m) k = lookup m k := by
  induction m with
  | nil => rfl
  | cons e rest ih =>
    obtain ⟨k0, w⟩ := e
    by_cases h : k0 = k
    · simp [rangeEntries, lookup, h]
    · have hk : k ≠ k0 := fun h2 => h h2.symm
      simp [rangeEntries, lookup, h, lookup_filter_ne _ _ _ hk, ih]

theorem keys_filter_ne {α : Type} (m : List (String × α)) (k : String) :
    keys (m.filter (fun e => !decide (e.1 = k))) = (keys m).filter (fun x => !decide (x = k)) := by
  induction m with
  | nil => rfl
  | cons e rest ih =>
    obtain ⟨k0, w⟩ := e
    by_cases h0 : k0 = k
    · simpa [List.filter, keys, h0] using ih
    · simpa [List.filter, keys, h0] using ih

theorem rangeEntries_keys_nodup {α : Type} (m : List (String × α)) :
    (keys (rangeEntries m)).Nodup := by
  induction m with
  | nil => simp [rangeEntries, keys]
  | cons e rest ih =>
    obtain ⟨k0, w⟩ := e
    have hk : keys (rangeEntries ((k0, w) :: rest))
        = k0 :: (keys (rangeEntries rest)).filter (fun x => !decide (x = k0)) := by
      simp only [rangeEntries, keys, List.map_cons]
      exact congrArg _ (keys_filter_ne (rangeEntries rest) k0)
    rw [hk, List.nodup_cons]
    refine ⟨?_, ih.filter _⟩
    simp [List.mem_filter]

theorem mem_keys_rangeEntries {α : Type} (m : List (String × α)) (k : String) :
    k ∈ keys (rangeEntries m) ↔ k ∈ keys m := by
  rw [← lookup_isSome_iff_mem_keys, ← lookup_isSome_iff_mem_keys, lookup_rangeEntries]

theorem lookup_eq_some_iff_mem {α : Type} (m : List (String × α)) (hm : (keys m).Nodup)
    (k : String) (v : α) : lookup m k = some v ↔ (k, v) ∈ m := by
  induction m with
  | nil => simp [lookup]
  | cons e rest ih =>
    obtain ⟨k0, w⟩ := e
    have hnd : k0 ∉ keys rest ∧ (keys rest).Nodup := by
      simpa [keys, List.nodup_cons] using hm
    by_cases h : k0 = k
    · subst h
      have hnot : ∀ x, (k0, x) ∉ rest := fun x hx =>
        hnd.1 (List.mem_map.mpr ⟨(k0, x), hx, rfl⟩)
      simp only [lookup, if_true, List.mem_cons, Prod.mk.injEq, true_and, hnot, or_false,
        Option.some.injEq]
      exact eq_comm
    · have hk : ¬ k = k0 := fun h2 => h h2.symm
      simp [lookup, h, hk, ih hnd.2]

theorem lookup_perm {α : Type} (m m2 : List (String × α)) (hm : (keys m).Nodup)
    (hp : m2.Perm m) (k : String) : lookup m2 k = lookup m k := by
  have hm2 : (keys m2).Nodup := ((hp.map Prod.fst).nodup_iff).mpr hm
  cases h : lookup m k with
  | some v =>
    exact (lookup_eq_some_iff_mem m2 hm2 k v).mpr
      (hp.mem_iff.mpr ((lookup_eq_some_iff_mem m hm k v).mp h))
  | none =>
    cases h2 : lookup m2 k with
    | none => rfl
    | some v =>
      have := (lookup_eq_some_iff_mem m hm k v).mpr
        (hp.mem_iff.mp ((lookup_eq_some_iff_mem m2 hm2 k v).mp h2))
      rw [h] at this
      cases this

/-! ## Resource builder lemmas -/

theorem lookup_copyEntry_reserved (m : Entries) (e : String × Value) (k : String)
    (hk : isReservedKey k = true) : lookup (copyEntry m e) k = lookup m k := by
  unfold copyEntry
  by_cases he : isReservedKey e.1 = true
  · simp [he]
  · have hne : ¬ e.1 = k := fun h => he (h ▸ hk)
    simp [he, lookup_set, hne]

theorem lookup_foldl_copyEntry_reserved (visit : List (String × Value)) (m : Entries)
    (k : String) (hk : isReservedKey k = true) :
    lookup (visit.foldl copyEntry m) k = lookup m k := by
  induction visit generalizing m with
  | nil => rfl
  | cons e rest ih =>
    rw [List.foldl_cons, ih, lookup_copyEntry_reserved m e k hk]

theorem lookup_foldl_copyEntry (visit : List (String × Value)) (hv : (keys visit).Nodup)
    (m : Entries) (k : String) (hk : isReservedKey k = false) :
    lookup (visit.foldl copyEntry m) k
      = match lookup visit k with
        | some v => some v
        | none => lookup m k := by
  induction visit generalizing m with
  | nil => rfl
  | cons e rest ih =>
    obtain ⟨k0, w⟩ := e
    have hnd : k0 ∉ keys rest ∧ (keys rest).Nodup := by
      simpa [keys, List.nodup_cons] using hv
    rw [List.foldl_cons, ih hnd.2]
    by_cases h : k0 = k
    · subst h
      rw [lookup_eq_none_of_not_mem rest k0 hnd.1]
      simp [copyEntry, hk, lookup_set, lookup]
    · have hc : lookup (copyEntry m (k0, w)) k = lookup m k := by
        unfold copyEntry
        by_cases hr : isReservedKey k0 = true
        · simp [hr]
        · simp [hr, lookup_set, h]
      simp only [lookup, h, if_false, hc]

theorem lookup_initialResource_of_not_reserved (comp : ComponentDefinition) (k : String)
    (hk : isReservedKey k = false) : lookup (initialResource comp) k = none := by
  simp only [isReservedKey, Bool.or_eq_false_iff, decide_eq_false_iff_not] at hk
  obtain ⟨⟨h1, h2⟩, h3⟩ := hk
  have h1b : ¬ "apiVersion" = k := fun h => h1 h.symm
  have h2b : ¬ "kind" = k := fun h => h2 h.symm
  have h3b : ¬ "metadata" = k := fun h => h3 h.symm
  simp [initialResource, lookup, h1b, h2b, h3b]

theorem lookup_createK8sResourceStructureIn (comp : ComponentDefinition)
    (visit : List (String × Value)) (hp : visit.Perm (rangeEntries comp.config)) (k : String) :
    lookup (createK8sResourceStructureIn comp visit) k
      = if isReservedKey k = true then lookup (initialResource comp) k
        else lookup comp.config k := by
  have hnd : (keys visit).Nodup :=
    ((hp.map Prod.fst).nodup_iff).mpr (rangeEntries_keys_nodup comp.config)
  by_cases hk : isReservedKey k = true
  · simp only [hk, if_true]
    exact lookup_foldl_copyEntry_reserved visit _ k hk
  · have hk2 : isReservedKey k = false := by simpa using hk
    simp only [hk, if_false]
    unfold createK8sResourceStructureIn
    rw [lookup_foldl_copyEntry visit hnd _ k hk2,
      lookup_perm _ _ (rangeEntries_keys_nodup comp.config) hp k, lookup_rangeEntries,
      lookup_initialResource_of_not_reserved comp k hk2]
    cases lookup comp.config k <;> rfl

/-! ## Resource builder: properties -/

/-- C1. Whatever entries the loop over the configuration visits, and in
whatever order (entries named `apiVersion`, `kind` or `metadata` included),
the resource has `apiVersion` equal to the typed version, `kind` equal to the
typed kind and `metadata` equal to the map built from the display name and the
`annotations` and `labels` additional properties: no configuration value
replaces any of the three. In particular this holds of
`createK8sResourceStructure comp`. -/
theorem createK8sResourceStructure_reserved_from_typed_fields (comp : ComponentDefinition)
    (visit : List (String × Value)) :
    (lookup (createK8sResourceStructureIn comp visit) "apiVersion"
        = some (Value.str comp.Component.Version)
      ∧ lookup (createK8sResourceStructureIn comp visit) "kind"
        = some (Value.str comp.Component.Kind)
      ∧ lookup (createK8sResourceStructureIn comp visit) "metadata"
        = some (Value.obj
            [ ("name", Value.str comp.DisplayName),
              ("annotations", index comp.Metadata.AdditionalProperties "annotations"),
              ("labels", index comp.Metadata.AdditionalProperties "labels") ]))
    ∧ (lookup (createK8sResourceStructure comp) "apiVersion"
        = some (Value.str comp.Component.Version)
      ∧ lookup (createK8sResourceStructure comp) "kind"
        = some (Value.str comp.Component.Kind)
      ∧ lookup (createK8sResourceStructure comp) "metadata"
        = some (Value.obj
            [ ("name", Value.str comp.DisplayName),
              ("annotations", index comp.Metadata.AdditionalProperties "annotations"),
              ("labels", index comp.Metadata.AdditionalProperties "labels") ])) := by
  have key : ∀ v : List (String × Value),
      lookup (createK8sResourceStructureIn comp v) "apiVersion"
        = some (Value.str comp.Component.Version)
      ∧ lookup (createK8sResourceStructureIn comp v) "kind"
        = some (Value.str comp.Component.Kind)
      ∧ lookup (createK8sResourceStructureIn comp v) "metadata"
        = some (Value.obj
            [ ("name", Value.str comp.DisplayName),
              ("annotations", index comp.Metadata.AdditionalProperties "annotations"),
              ("labels", index comp.Metadata.AdditionalProperties "labels") ]) := by
    intro v
    unfold createK8sResourceStructureIn
    refine ⟨?_, ?_, ?_⟩
    · rw [lookup_foldl_copyEntry_reserved v _ "apiVersion" (by decide)]
      rfl
    · rw [lookup_foldl_copyEntry_reserved v _ "kind" (by decide)]
      simp [initialResource, lookup]
    · rw [lookup_foldl_copyEntry_reserved v _ "metadata" (by decide)]
      simp [initialResource, lookup]
  exact ⟨key visit, key (rangeEntries comp.config)⟩

/-- C2. For every order `visit` in which the loop may yield the configuration
entries (a permutation of the entries of the map): the keys of the resource are
exactly `apiVersion`, `kind`, `metadata` and the configuration keys other than
these three; every such configuration key maps to its configuration value; and
the resource holds the same value under every key as the resource built in the
stored order, so the result does not depend on the order of the visit. -/
theorem createK8sResourceStructure_keys_values_any_order (comp : ComponentDefinition)
    (visit : List (String × Value)) (hp : visit.Perm (rangeEntries comp.config)) :
    (∀ k : String, k ∈ keys (createK8sResourceStructureIn comp visit)
        ↔ (k = "apiVersion" ∨ k = "kind" ∨ k = "metadata"
            ∨ (k ∈ keys comp.config ∧ isReservedKey k = false)))
    ∧ (∀ k : String, k ∈ keys comp.config → isReservedKey k = false →
        lookup (createK8sResourceStructureIn comp visit) k = lookup comp.config k)
    ∧ (∀ k : String, lookup (createK8sResourceStructureIn comp visit) k
        = lookup (createK8sResourceStructure comp) k) := by
  refine ⟨?_, ?_, ?_⟩
  · intro k
    rw [← lookup_isSome_iff_mem_keys, lookup_createK8sResourceStructureIn comp visit hp k]
    by_cases hk : isReservedKey k = true
    · have hk3 : k = "apiVersion" ∨ k = "kind" ∨ k = "metadata" := by
        simpa [isReservedKey, or_assoc] using hk
      simp only [hk, if_true]
      constructor
      · intro _
        rcases hk3 with h | h | h
        · exact Or.inl h
        · exact Or.inr (Or.inl h)
        · exact Or.inr (Or.inr (Or.inl h))
      · intro _
        rcases hk3 with h | h | h <;> subst h <;> rfl
    · have hk2 : isReservedKey k = false := by simpa using hk
      have hne : ¬ (k = "apiVersion" ∨ k = "kind" ∨ k = "metadata") := by
        intro h
        rcases h with h | h | h <;> subst h <;> exact absurd hk2 (by decide)
      rw [if_neg hk, lookup_isSome_iff_mem_keys]
      constructor
      · intro h
        exact Or.inr (Or.inr (Or.inr ⟨h, hk2⟩))
      · intro h
        rcases h with h | h | h | h
        · exact absurd (Or.inl h) hne
        · exact absurd (Or.inr (Or.inl h)) hne
        · exact absurd (Or.inr (Or.inr h)) hne
        · exact h.1
  · intro k _ hk
    rw [lookup_createK8sResourceStructureIn comp visit hp k]
    simp [hk]
  · intro k
    rw [lookup_createK8sResourceStructureIn comp visit hp k]
    unfold createK8sResourceStructure
    rw [lookup_createK8sResourceStructureIn comp _ (List.Perm.refl _) k]

/-- C2, at a concrete input: the entries of the example Pod visited in the
reverse order give the same resource as the stored order. -/
theorem createK8sResourceStructure_keys_values_any_order_witness :
    ((rangeEntries examplePod.config).reverse).Perm (rangeEntries examplePod.config)
    ∧ (∀ k : String,
        lookup (createK8sResourceStructureIn examplePod (rangeEntries examplePod.config).reverse) k
          = lookup (createK8sResourceStructure examplePod) k) :=
  ⟨List.reverse_perm _,
    (createK8sResourceStructure_keys_values_any_order examplePod _ (List.reverse_perm _)).2.2⟩

/-! ## Dry-run validator: lemmas -/

theorem stringsSplit_length (sep : Char) (l : List Char) :
    (stringsSplit sep l).length = l.count sep + 1 := by
  induction l with
  | nil => rfl
  | cons c cs ih =>
    by_cases h : c = sep
    · subst h
      simp [stringsSplit, ih]
    · have hne : ¬ (c == sep) = true := by simpa using h
      cases hs : stringsSplit sep cs with
      | nil => rw [hs] at ih; simp at ih
      | cons p ps =>
        rw [hs] at ih
        simp only [stringsSplit, h, if_false, hs, List.count_cons, hne]
        simpa using ih

theorem stringsSplit_length_gt_one_iff (sep : Char) (l : List Char) :
    (stringsSplit sep l).length > 1 ↔ sep ∈ l := by
  rw [stringsSplit_length, ← List.count_pos_iff]
  omega

theorem dryRunPath_eq_specPath (L : Lib) (aV nspace kind : String) :
    dryRunPath L aV nspace kind = specPath L.toLower aV nspace kind := by
  unfold dryRunPath specPath kindToResource
  by_cases h : '/' ∈ aV.data
  · have h2 : (stringsSplit '/' aV.data).length > 1 := (stringsSplit_length_gt_one_iff _ _).mpr h
    simp only [h, h2, if_true]
    by_cases hn : nspace = "" <;> simp [hn, String.append_assoc]
  · have h2 : ¬ (stringsSplit '/' aV.data).length > 1 :=
      fun h3 => h ((stringsSplit_length_gt_one_iff _ _).mp h3)
    simp only [h, h2, if_false]
    by_cases hn : nspace = "" <;> simp [hn, String.append_assoc]

theorem eqStr_str (t s : String) : (Value.str t).eqStr s = decide (t = s) := rfl

theorem dryRun_of_string_fields (L : Lib) (rClient : RestClient) (k8sResource : Entries)
    (nspace aV kind : String)
    (hkind : index k8sResource "kind" = Value.str kind) (hkne : kind ≠ "")
    (hav : index k8sResource "apiVersion" = Value.str aV) (havne : aV ≠ "") :
    dryRun L rClient k8sResource nspace
      = match L.jsonMarshal k8sResource with
        | (_, some e) =>
          (some { st := none, success := false, err := some (ErrMarshal (some e) "k8s resource") },
            [])
        | (data, none) =>
          match rClient (dryRunRequest (dryRunPath L aV nspace kind) data) with
          | (resp, some (GoErr.statusError m)) =>
            (some (formatDryRunResponse L resp (some (GoErr.statusError m))),
              [dryRunRequest (dryRunPath L aV nspace kind) data])
          | (resp, some (GoErr.unexpectedObjectError m)) =>
            (some (formatDryRunResponse L resp (some (GoErr.unexpectedObjectError m))),
              [dryRunRequest (dryRunPath L aV nspace kind) data])
          | (_, err) =>
            (some { st := none, success := false, err := err },
              [dryRunRequest (dryRunPath L aV nspace kind) data]) := by
  unfold dryRun
  rw [hkind, hav]
  simp only [eqStr_str, hkne, havne, decide_False, Bool.or_self, Bool.false_eq_true, if_false]

/-- The requests of `dryRun` on a resource with non-empty string kind and API
version: none when the resource cannot be serialised, else the one request. -/
theorem dryRun_requests (L : Lib) (rClient : RestClient) (k8sResource : Entries)
    (nspace aV kind : String)
    (hkind : index k8sResource "kind" = Value.str kind) (hkne : kind ≠ "")
    (hav : index k8sResource "apiVersion" = Value.str aV) (havne : aV ≠ "") :
    (dryRun L rClient k8sResource nspace).2
      = match L.jsonMarshal k8sResource with
        | (_, some _) => []
        | (data, none) => [dryRunRequest (dryRunPath L aV nspace kind) data] := by
  rw [dryRun_of_string_fields L rClient k8sResource nspace aV kind hkind hkne hav havne]
  rcases hm : L.jsonMarshal k8sResource with ⟨data, _ | e⟩
  · simp only
    rcases hc : rClient (dryRunRequest (dryRunPath L aV nspace kind) data) with ⟨resp, _ | e⟩
    · rfl
    · cases e <;> rfl
  · rfl

/-! ## Dry-run validator: properties -/

/-- C3. For every resource whose kind and API version are non-empty strings
and every namespace, each request `dryRun` issues is a POST to the path the
specification gives (`specPath`: root `apis` when the API version contains a
slash and `api` otherwise, then the API version, then `namespaces/<ns>` when
the namespace is not empty, then the lower-cased kind followed by `s`), and
when the resource serialises `dryRun` issues exactly that one request. -/
theorem dryRun_posts_to_specPath (L : Lib) (rClient : RestClient) (k8sResource : Entries)
    (nspace aV kind : String)
    (hkind : index k8sResource "kind" = Value.str kind) (hkne : kind ≠ "")
    (hav : index k8sResource "apiVersion" = Value.str aV) (havne : aV ≠ "") :
    (∀ req ∈ (dryRun L rClient k8sResource nspace).2,
        req.verb = "POST" ∧ req.absPath = specPath L.toLower aV nspace kind)
    ∧ (∀ data : Bytes, L.jsonMarshal k8sResource = (data, none) →
        (dryRun L rClient k8sResource nspace).2
          = [dryRunRequest (specPath L.toLower aV nspace kind) data]) := by
  have hreq := dryRun_requests L rClient k8sResource nspace aV kind hkind hkne hav havne
  rw [dryRunPath_eq_specPath] at hreq
  constructor
  · intro req hmem
    rw [hreq] at hmem
    rcases hm : L.jsonMarshal k8sResource with ⟨data, _ | e⟩
    · rw [hm] at hmem
      simp only [List.mem_singleton] at hmem
      subst hmem
      exact ⟨rfl, rfl⟩
    · rw [hm] at hmem
      simp at hmem
  · intro data hm
    rw [hreq, hm]

/-- C3, at the inputs the specification names: a Pod of version `v1` is posted
to `/api/v1/pods` without a namespace and to `/api/v1/namespaces/default/pods`
with the namespace `default`; a Deployment of version `apps/v1` is posted to
`/apis/apps/v1/deployments` and to
`/apis/apps/v1/namespaces/default/deployments`. -/
theorem dryRun_posts_to_specPath_witness :
    (dryRun exampleLib acceptingClient podResource "").2
        = [dryRunRequest "/api/v1/pods" podBody]
    ∧ (dryRun exampleLib acceptingClient podResource "default").2
        = [dryRunRequest "/api/v1/namespaces/default/pods" podBody]
    ∧ (dryRun exampleLib acceptingClient deploymentResource "").2
        = [dryRunRequest "/apis/apps/v1/deployments" podBody]
    ∧ (dryRun exampleLib acceptingClient deploymentResource "default").2
        = [dryRunRequest "/apis/apps/v1/namespaces/default/deployments" podBody] :=
  ⟨(dryRun_posts_to_specPath exampleLib acceptingClient podResource "" "v1" "Pod"
      rfl (by decide) rfl (by decide)).2 podBody rfl,
   (dryRun_posts_to_specPath exampleLib acceptingClient podResource "default" "v1" "Pod"
      rfl (by decide) rfl (by decide)).2 podBody rfl,
   (dryRun_posts_to_specPath exampleLib acceptingClient deploymentResource "" "apps/v1"
      "Deployment" rfl (by decide) rfl (by decide)).2 podBody rfl,
   (dryRun_posts_to_specPath exampleLib acceptingClient deploymentResource "default" "apps/v1"
      "Deployment" rfl (by decide) rfl (by decide)).2 podBody rfl⟩

/-- C4. For every resource whose kind is the empty string or whose API version
is the empty string, for every namespace and every client, `dryRun` returns a
nil status, `success = false` and a `DryRunError`, and issues no request. -/
theorem dryRun_empty_kind_or_apiVersion (L : Lib) (rClient : RestClient)
    (k8sResource : Entries) (nspace : String)
    (h : index k8sResource "kind" = Value.str "" ∨ index k8sResource "apiVersion" = Value.str "") :
    dryRun L rClient k8sResource nspace
        = (some { st := none, success := false,
                  err := some (ErrDryRun (fmtErrorf "invalid resource or namespace not provided")
                    "\"kind\" and \"apiVersion\" cannot be empty") }, [])
    ∧ (ErrDryRun (fmtErrorf "invalid resource or namespace not provided")
        "\"kind\" and \"apiVersion\" cannot be empty").isDryRunError = true := by
  refine ⟨?_, rfl⟩
  unfold dryRun
  rcases h with h | h
  · rw [h]
    simp [eqStr_str]
  · rw [h]
    simp [eqStr_str]

/-- C4, at a concrete input: a resource of version `v1` whose kind is the
empty string, with a client that would accept any request. -/
theorem dryRun_empty_kind_or_apiVersion_witness :
    (index emptyKindResource "kind" = Value.str ""
      ∨ index emptyKindResource "apiVersion" = Value.str "")
    ∧ (dryRun exampleLib acceptingClient emptyKindResource "default").2 = []
    ∧ (dryRun exampleLib acceptingClient emptyKindResource "default").1
        = some { st := none, success := false,
                 err := some (GoErr.errDryRun
                   (GoErr.errorf "invalid resource or namespace not provided")
                   "\"kind\" and \"apiVersion\" cannot be empty") } :=
  ⟨Or.inl rfl,
   congrArg Prod.snd (dryRun_empty_kind_or_apiVersion exampleLib acceptingClient
     emptyKindResource "default" (Or.inl rfl)).1,
   congrArg Prod.fst (dryRun_empty_kind_or_apiVersion exampleLib acceptingClient
     emptyKindResource "default" (Or.inl rfl)).1⟩

/-- C5. For every response body that parses to a Status Response (the decoded
map is not nil and its `kind` entry is not nil, which is the test
`status == nil || status["kind"] == nil` of the code): when the `status` entry
equals `"Failure"` the results are the parsed map, `false` and a nil error;
when the `status` entry is anything else or absent, the results are the
parsed map, `true` and a nil error. -/
theorem formatDryRunResponse_of_status_response (L : Lib) (resp : Bytes) (err : Option GoErr)
    (status : Entries)
    (hparse : L.jsonUnmarshal resp = (some status, none))
    (hkind : index status "kind" ≠ Value.nil) :
    (index status "status" = Value.str "Failure" →
        formatDryRunResponse L resp err
          = { st := some status, success := false, err := none })
    ∧ (index status "status" ≠ Value.str "Failure" →
        formatDryRunResponse L resp err
          = { st := some status, success := true, err := none }) := by
  have hnil : (index status "kind").isNil = false := by
    cases hv : index status "kind" with
    | nil => exact absurd hv hkind
    | _ => rfl
  constructor
  · intro hs
    unfold formatDryRunResponse
    rw [hparse]
    simp [indexOpt, hnil, hs, eqStr_str]
  · intro hs
    have hne : (index status "status").eqStr "Failure" = false := by
      cases hv : index status "status" with
      | str t =>
        have : t ≠ "Failure" := fun h => hs (by rw [hv, h])
        simp [eqStr_str, this]
      | _ => rfl
    unfold formatDryRunResponse
    rw [hparse]
    simp [indexOpt, hnil, hne]

/-- C5, at concrete inputs: the body of a `Failure` status and the body of a
created Pod. -/
theorem formatDryRunResponse_of_status_response_witness :
    formatDryRunResponse exampleLib failureBody (some (GoErr.statusError "Failure"))
        = { st := some [("kind", Value.str "Status"), ("status", Value.str "Failure")],
            success := false, err := none }
    ∧ formatDryRunResponse exampleLib podBody (some (GoErr.statusError "Failure"))
        = { st := some [("kind", Value.str "Pod")], success := true, err := none } :=
  ⟨(formatDryRunResponse_of_status_response exampleLib failureBody
      (some (GoErr.statusError "Failure"))
      [("kind", Value.str "Status"), ("status", Value.str "Failure")] rfl
      (fun h => Value.noConfusion h)).1 rfl,
   (formatDryRunResponse_of_status_response exampleLib podBody
      (some (GoErr.statusError "Failure"))
      [("kind", Value.str "Pod")] rfl
      (fun h => Value.noConfusion h)).2 (fun h => Value.noConfusion h)⟩

/-- C6. For every response body and error: `formatDryRunResponse` returns a
non-nil error exactly when the body does not parse or it parses to a nil map
or to a map without a (non-nil) `kind`; in the first case the error is a
`MarshalError`, in the second a `DryRunError`; and a parsed body with a
`kind` and the status `"Failure"` yields no error. -/
theorem formatDryRunResponse_error_iff (L : Lib) (resp : Bytes) (err : Option GoErr) :
    ((formatDryRunResponse L resp err).err ≠ none
        ↔ ((L.jsonUnmarshal resp).2 ≠ none
            ∨ ((L.jsonUnmarshal resp).2 = none
                ∧ ((L.jsonUnmarshal resp).1 = none
                    ∨ indexOpt (L.jsonUnmarshal resp).1 "kind" = Value.nil))))
    ∧ ((L.jsonUnmarshal resp).2 ≠ none →
        ∃ e, (formatDryRunResponse L resp err).err = some e ∧ e.isMarshalError = true)
    ∧ ((L.jsonUnmarshal resp).2 = none →
        ((L.jsonUnmarshal resp).1 = none
          ∨ indexOpt (L.jsonUnmarshal resp).1 "kind" = Value.nil) →
        ∃ e, (formatDryRunResponse L resp err).err = some e ∧ e.isDryRunError = true)
    ∧ (∀ status : Entries, L.jsonUnmarshal resp = (some status, none) →
        index status "kind" ≠ Value.nil → index status "status" = Value.str "Failure" →
        (formatDryRunResponse L resp err).err = none) := by
  have hisNil : ∀ v : Value, v.isNil = true ↔ v = Value.nil := by
    intro v
    cases v <;> simp [Value.isNil]
  rcases hu : L.jsonUnmarshal resp with ⟨status, _ | e⟩
  · -- the body parses
    have hcond : (status.isNone || (indexOpt status "kind").isNil) = true
        ↔ (status = none ∨ indexOpt status "kind" = Value.nil) := by
      rw [Bool.or_eq_true, hisNil, Option.isNone_iff_eq_none]
    have herr : (formatDryRunResponse L resp err).err
        = if status.isNone || (indexOpt status "kind").isNil then
            some (ErrDryRun (fmtErrorf "nil response to dry run request to Kubernetes") "")
          else none := by
      unfold formatDryRunResponse
      rw [hu]
      simp only
      split <;> rfl
    refine ⟨?_, ?_, ?_, ?_⟩
    · rw [herr]
      by_cases hc : (status.isNone || (indexOpt status "kind").isNil) = true
      · simp only [hc, if_true]
        simpa using hcond.mp hc
      · simp only [hc, if_false]
        have := fun h => hc (hcond.mpr h)
        simpa using this
    · intro h
      exact absurd rfl h
    · intro _ h
      rw [herr, if_pos (hcond.mpr h)]
      exact ⟨_, rfl, rfl⟩
    · intro st hst hk _
      have hs : status = some st := by
        have := congrArg Prod.fst hst
        simpa using this
      have hc : ¬ (status.isNone || (indexOpt status "kind").isNil) = true := by
        rw [hcond, hs]
        simp [indexOpt, hk]
      rw [herr, if_neg hc]
  · -- the body does not parse
    have herr : (formatDryRunResponse L resp err).err
        = some (ErrMarshal err
            ("cannot serialize Status object from the server: " ++ e.Error)) := by
      unfold formatDryRunResponse
      rw [hu]
    refine ⟨?_, ?_, ?_, ?_⟩
    · rw [herr]
      simp
    · intro _
      exact ⟨_, herr, rfl⟩
    · intro h
      simp at h
    · intro st hst
      simp at hst

/-- C7. For every resource whose kind and API version are non-empty strings and
which serialises, when the request comes back with a non-nil error `e`: if `e`
is neither a status error nor an unexpected-object error, `dryRun` returns a
nil status, `success = false` and `e` itself, whatever the decoder of response
bodies is (the body is not parsed); if `e` is a status error or an
unexpected-object error, the results are those of
`formatDryRunResponse` on the body and `e`, in both cases alike. -/
theorem dryRun_error_shapes (L : Lib) (rClient : RestClient) (k8sResource : Entries)
    (nspace aV kind : String) (data resp : Bytes) (e : GoErr)
    (hkind : index k8sResource "kind" = Value.str kind) (hkne : kind ≠ "")
    (hav : index k8sResource "apiVersion" = Value.str aV) (havne : aV ≠ "")
    (hm : L.jsonMarshal k8sResource = (data, none))
    (hc : rClient (dryRunRequest (dryRunPath L aV nspace kind) data) = (resp, some e)) :
    (e.isStatusError = false → e.isUnexpectedObjectError = false →
        ∀ decoder : Bytes → Option Entries × Option GoErr,
          (dryRun { L with jsonUnmarshal := decoder } rClient k8sResource nspace).1
            = some { st := none, success := false, err := some e })
    ∧ (e.isStatusError = true ∨ e.isUnexpectedObjectError = true →
        (dryRun L rClient k8sResource nspace).1
          = some (formatDryRunResponse L resp (some e))) := by
  constructor
  · intro h1 h2 decoder
    have hm2 : ({ L with jsonUnmarshal := decoder } : Lib).jsonMarshal k8sResource
        = (data, none) := hm
    have hc2 : rClient (dryRunRequest
        (dryRunPath { L with jsonUnmarshal := decoder } aV nspace kind) data)
        = (resp, some e) := hc
    rw [dryRun_of_string_fields _ rClient k8sResource nspace aV kind hkind hkne hav havne,
      hm2]
    simp only
    rw [hc2]
    cases e with
    | statusError m => simp [GoErr.isStatusError] at h1
    | unexpectedObjectError m => simp [GoErr.isUnexpectedObjectError] at h2
    | _ => rfl
  · intro h
    rw [dryRun_of_string_fields L rClient k8sResource nspace aV kind hkind hkne hav havne, hm]
    simp only
    rw [hc]
    cases e with
    | statusError m => rfl
    | unexpectedObjectError m => rfl
    | errorf m => simp [GoErr.isStatusError, GoErr.isUnexpectedObjectError] at h
    | other m => simp [GoErr.isStatusError, GoErr.isUnexpectedObjectError] at h
    | errDryRun c o => simp [GoErr.isStatusError, GoErr.isUnexpectedObjectError] at h
    | errMarshal c o => simp [GoErr.isStatusError, GoErr.isUnexpectedObjectError] at h

/-- C7, at concrete inputs: a transport failure is returned unchanged, and a
status error leads to the results of `formatDryRunResponse`. -/
theorem dryRun_error_shapes_witness :
    (dryRun exampleLib brokenClient podResource "default").1
        = some { st := none, success := false, err := some (GoErr.other "connection refused") }
    ∧ (dryRun exampleLib rejectingClient podResource "default").1
        = some (formatDryRunResponse exampleLib failureBody
            (some (GoErr.statusError "Failure"))) :=
  ⟨(dryRun_error_shapes exampleLib brokenClient podResource "default" "v1" "Pod" podBody []
      (GoErr.other "connection refused") rfl (by decide) rfl (by decide) rfl rfl).1 rfl rfl
      exampleLib.jsonUnmarshal,
   (dryRun_error_shapes exampleLib rejectingClient podResource "default" "v1" "Pod" podBody
      failureBody (GoErr.statusError "Failure") rfl (by decide) rfl (by decide) rfl rfl).2
      (Or.inl rfl)⟩

/-- An accepted request (the client returns a body and a nil error) makes
`dryRun` return its zero results: the `default` case of the type switch
returns without looking at the body. -/
theorem dryRun_of_nil_error (L : Lib) (rClient : RestClient) (k8sResource : Entries)
    (nspace aV kind : String) (data resp : Bytes)
    (hkind : index k8sResource "kind" = Value.str kind) (hkne : kind ≠ "")
    (hav : index k8sResource "apiVersion" = Value.str aV) (havne : aV ≠ "")
    (hm : L.jsonMarshal k8sResource = (data, none))
    (hc : rClient (dryRunRequest (dryRunPath L aV nspace kind) data) = (resp, none)) :
    (dryRun L rClient k8sResource nspace).1
      = some { st := none, success := false, err := none } := by
  rw [dryRun_of_string_fields L rClient k8sResource nspace aV kind hkind hkne hav havne, hm]
  simp only
  rw [hc]

/-- C8, at the failing input. The resource is a Pod of version `v1`, the
namespace is `default`, and the client accepts the dry run: it returns the
body of the created Pod (which has a `kind` and no `status`) and a nil error.
`dryRun` issues the request and returns a nil status, `success = false` and a
nil error, although `formatDryRunResponse` on the same body reports
`success = true`. -/
theorem dryRun_accepted_request_reports_failure :
    dryRun exampleLib acceptingClient podResource "default"
        = (some { st := none, success := false, err := none },
            [dryRunRequest "/api/v1/namespaces/default/pods" podBody])
    ∧ acceptingClient (dryRunRequest "/api/v1/namespaces/default/pods" podBody) = (podBody, none)
    ∧ formatDryRunResponse exampleLib podBody none
        = { st := some [("kind", Value.str "Pod")], success := true, err := none } :=
  ⟨rfl, rfl, rfl⟩

/-! ## Provisioning stage: properties -/

/-- C9. In each fatal case of the stage (it is entered with a non-nil error,
plan creation returns an error, or the plan is not feasible) the only call the
stage makes is one call of `Terminate` with one error (for an infeasible plan
the error `infeasible execution: detected cycle in the plan`): the calls
recorded are those made before plus that one, so the provisioning action is
not invoked and `next` is not called; the state of the provisioning action and
the Result Store are unchanged. -/
theorem Provision_fatal_cases {σ : Type} (E : Env σ) (s : StageState σ) (hasNext : Bool) :
    (∀ e : GoErr,
        (Provision E s (some e) hasNext).events = s.events ++ [Event.terminate e]
        ∧ (Provision E s (some e) hasNext).other = s.other
        ∧ (Provision E s (some e) hasNext).act = s.act)
    ∧ (∀ (plan : Plan) (e : GoErr),
        E.CreatePlan (processAnnotations s.pattern) E.IsDelete = (plan, some e) →
        (Provision E s none hasNext).events = s.events ++ [Event.terminate e]
        ∧ (Provision E s none hasNext).other = s.other
        ∧ (Provision E s none hasNext).act = s.act)
    ∧ (∀ plan : Plan,
        E.CreatePlan (processAnnotations s.pattern) E.IsDelete = (plan, none) →
        plan.IsFeasible = false →
        (Provision E s none hasNext).events = s.events ++
            [Event.terminate (GoErr.errorf "infeasible execution: detected cycle in the plan")]
        ∧ (Provision E s none hasNext).other = s.other
        ∧ (Provision E s none hasNext).act = s.act) := by
  refine ⟨?_, ?_, ?_⟩
  · intro e
    exact ⟨rfl, rfl, rfl⟩
  · intro plan e hp
    unfold Provision
    simp only [hp]
    trivial
  · intro plan hp hf
    have hfmt : fmtErrorf "infeasible execution: detected cycle in the plan"
        = GoErr.errorf "infeasible execution: detected cycle in the plan" := rfl
    unfold Provision
    simp only [hp, hf, hfmt]
    trivial

/-- C9, at concrete inputs: the stage entered with an error, a planner that
fails, and a planner whose plan has a cycle. In each case the calls made are
one call of `Terminate`, and no component is provisioned. -/
theorem Provision_fatal_cases_witness :
    (Provision (exampleEnv true none) exampleState (some (GoErr.other "invalid design"))
        true).events = [Event.terminate (GoErr.other "invalid design")]
    ∧ (Provision (exampleEnv true (some (GoErr.other "no plan"))) exampleState none true).events
        = [Event.terminate (GoErr.other "no plan")]
    ∧ (Provision (exampleEnv false none) exampleState none true).events
        = [Event.terminate (GoErr.errorf "infeasible execution: detected cycle in the plan")]
    ∧ (Provision (exampleEnv false none) exampleState none true).other = some []
    ∧ (Provision (exampleEnv false none) exampleState none true).act = 0 :=
  ⟨((Provision_fatal_cases (exampleEnv true none) exampleState true).1
      (GoErr.other "invalid design")).1,
   ((Provision_fatal_cases (exampleEnv true (some (GoErr.other "no plan"))) exampleState
      true).2.1 _ (GoErr.other "no plan") rfl).1,
   ((Provision_fatal_cases (exampleEnv false none) exampleState true).2.2 _ rfl rfl).1,
   ((Provision_fatal_cases (exampleEnv false none) exampleState true).2.2 _ rfl rfl).2.1,
   ((Provision_fatal_cases (exampleEnv false none) exampleState true).2.2 _ rfl rfl).2.2⟩

/-- C10, at the failing input. The plan is feasible and schedules the two
components `web` and `db`; the provisioning action fails on `db` with the
message `disk 100% full` and succeeds on `web`. The stage invokes the action
twice and calls `next` once, but the text of the error it hands to `next` is
`disk 100%!f(MISSING)ull`, which does not contain the message of the failure:
`mergeErrors` passes the joined messages to `fmt.Errorf` as the format. -/
theorem Provision_aggregate_error_loses_message :
    ((Provision (exampleEnv true none) exampleState none true).events.filter
        Event.isProvision).length = 2
    ∧ (Provision (exampleEnv true none) exampleState none true).act = 2
    ∧ (nextErrors (Provision (exampleEnv true none) exampleState none true).events).map errorText
        = [some "disk 100%!f(MISSING)ull"]
    ∧ ¬ ("disk 100% full".data <:+: "disk 100%!f(MISSING)ull".data) := by
  refine ⟨?_, ?_, ?_, ?_⟩
  · rfl
  · rfl
  · rfl
  · decide

/-! ## Error aggregate: properties -/

theorem mergeErrors_eq_none_iff (errs : List GoErr) : mergeErrors errs = none ↔ errs = [] := by
  cases errs with
  | nil => simp [mergeErrors]
  | cons e rest => simp [mergeErrors]

theorem sprintfLoop_of_no_percent (fuel : Nat) (format : List Char) (h : '%' ∉ format) :
    sprintfLoop (fuel + 1) format = format := by
  have hall : ∀ c ∈ format, (!decide (c = '%')) = true := by
    intro c hc
    have : c ≠ '%' := fun hcp => h (hcp ▸ hc)
    simp [this]
  have ht : format.takeWhile (fun c => !decide (c = '%')) = format :=
    List.takeWhile_eq_self_iff.mpr hall
  have hd : format.dropWhile (fun c => !decide (c = '%')) = [] :=
    List.dropWhile_eq_nil_iff.mpr hall
  simp only [sprintfLoop, hd, ht]

/-- A format without a percent sign is formatted as itself. -/
theorem sprintfNoArgs_of_no_percent (format : String) (h : '%' ∉ format.data) :
    sprintfNoArgs format = format := by
  unfold sprintfNoArgs
  rw [sprintfLoop_of_no_percent _ _ h]

/-- C12, at the failing input. For the list of the one error whose message is
`disk 100% full`, the messages joined by a newline are `disk 100% full`, but
the message of the error `mergeErrors` returns is `disk 100%!f(MISSING)ull`:
the joined text is given to `fmt.Errorf` as the format, and the percent sign
starts a verb. -/
theorem mergeErrors_percent_sign_rewritten :
    stringsJoin ([GoErr.other "disk 100% full"].map GoErr.Error) "\n" = "disk 100% full"
    ∧ errorText (mergeErrors [GoErr.other "disk 100% full"]) = some "disk 100%!f(MISSING)ull"
    ∧ errorText (mergeErrors [GoErr.other "disk 100% full"])
        ≠ some (stringsJoin ([GoErr.other "disk 100% full"].map GoErr.Error) "\n") := by
  refine ⟨rfl, rfl, ?_⟩
  decide

/-! ## Annotation merge: properties -/

theorem lookup_foldl_set {α : Type} (l : List (String × α)) (hl : (keys l).Nodup)
    (res : List (String × α)) (k : String) :
    lookup (l.foldl (fun r e => set r e.1 e.2) res) k
      = match lookup l k with
        | some v => some v
        | none => lookup res k := by
  induction l generalizing res with
  | nil => rfl
  | cons e rest ih =>
    obtain ⟨k0, w⟩ := e
    have hnd : k0 ∉ keys rest ∧ (keys rest).Nodup := by
      simpa [keys, List.nodup_cons] using hl
    rw [List.foldl_cons, ih hnd.2]
    by_cases h : k0 = k
    · subst h
      rw [lookup_eq_none_of_not_mem rest k0 hnd.1]
      simp [lookup_set, lookup]
    · simp only [lookup, h, if_false, lookup_set]

theorem lookup_MergeStringMaps_pair (a b : StrEntries) (k : String) :
    lookup (MergeStringMaps [a, b]) k
      = match lookup b k with
        | some v => some v
        | none => lookup a k := by
  unfold MergeStringMaps
  simp only [List.foldl_cons, List.foldl_nil]
  rw [lookup_foldl_set _ (rangeEntries_keys_nodup b), lookup_rangeEntries,
    lookup_foldl_set _ (rangeEntries_keys_nodup a), lookup_rangeEntries]
  cases lookup b k with
  | some v => rfl
  | none =>
    cases lookup a k with
    | some v => rfl
    | none => rfl

theorem set_of_not_mem_keys {α : Type} (m : List (String × α)) (k : String) (v : α)
    (h : k ∉ keys m) : set m k v = m ++ [(k, v)] := by
  induction m with
  | nil => rfl
  | cons e rest ih =>
    obtain ⟨k0, w⟩ := e
    have h0 : ¬ k0 = k := fun hk => h (by simp [keys, hk])
    have hrest : k ∉ keys rest := fun hk => h (by simp [keys] at hk ⊢; exact Or.inr hk)
    simp only [set, h0, if_false, ih hrest, List.cons_append]

theorem set_of_lookup_eq_some {α : Type} (m : List (String × α)) (k : String) (v : α)
    (h : lookup m k = some v) : set m k v = m := by
  induction m with
  | nil => simp [lookup] at h
  | cons e rest ih =>
    obtain ⟨k0, w⟩ := e
    by_cases h0 : k0 = k
    · simp only [lookup, h0, if_true, Option.some.injEq] at h
      simp only [set, h0, if_true, h]
    · simp only [lookup, h0, if_false] at h
      simp only [set, h0, if_false, ih h]

theorem keys_set {α : Type} (m : List (String × α)) (k : String) (v : α) :
    keys (set m k v) = if k ∈ keys m then keys m else keys m ++ [k] := by
  induction m with
  | nil => simp [set, keys]
  | cons e rest ih =>
    obtain ⟨k0, w⟩ := e
    by_cases h0 : k0 = k
    · subst h0
      simp [set, keys]
    · have hk : ¬ k = k0 := fun h => h0 h.symm
      have ih2 : List.map Prod.fst (set rest k v)
          = if k ∈ List.map Prod.fst rest then List.map Prod.fst rest
            else List.map Prod.fst rest ++ [k] := ih
      simp only [set, h0, if_false, keys, List.map_cons, List.mem_cons, hk, false_or, ih2]
      split <;> simp

theorem nodup_keys_set {α : Type} (m : List (String × α)) (k : String) (v : α)
    (h : (keys m).Nodup) : (keys (set m k v)).Nodup := by
  rw [keys_set]
  split
  · exact h
  · rename_i hk
    rw [List.nodup_append]
    refine ⟨h, List.nodup_singleton k, ?_⟩
    intro x hx hy
    simp only [List.mem_singleton] at hy
    exact hk (hy ▸ hx)

theorem nodup_keys_foldl_set {α : Type} (l res : List (String × α))
    (h : (keys res).Nodup) : (keys (l.foldl (fun r e => set r e.1 e.2) res)).Nodup := by
  induction l generalizing res with
  | nil => exact h
  | cons e rest ih =>
    rw [List.foldl_cons]
    exact ih _ (nodup_keys_set res e.1 e.2 h)

theorem nodup_keys_MergeStringMaps_pair (a b : StrEntries) :
    (keys (MergeStringMaps [a, b])).Nodup := by
  unfold MergeStringMaps
  simp only [List.foldl_cons, List.foldl_nil]
  exact nodup_keys_foldl_set _ _ (nodup_keys_foldl_set _ _ (by simp [keys]))

theorem rangeEntries_of_nodup {α : Type} (m : List (String × α)) (h : (keys m).Nodup) :
    rangeEntries m = m := by
  induction m with
  | nil => rfl
  | cons e rest ih =>
    obtain ⟨k0, w⟩ := e
    have hnd : k0 ∉ keys rest ∧ (keys rest).Nodup := by
      simpa [keys, List.nodup_cons] using h
    simp only [rangeEntries, ih hnd.2]
    congr 1
    apply List.filter_eq_self.mpr
    intro x hx
    have : x.1 ≠ k0 := fun hk => hnd.1 (List.mem_map.mpr ⟨x, hx, hk⟩)
    simp [this]

theorem foldl_set_append_of_nodup {α : Type} (l acc : List (String × α))
    (h : (keys (acc ++ l)).Nodup) : l.foldl (fun r e => set r e.1 e.2) acc = acc ++ l := by
  induction l generalizing acc with
  | nil => simp
  | cons e rest ih =>
    obtain ⟨k0, w⟩ := e
    have hk0 : k0 ∉ keys acc := by
      intro hk
      have hnd : (keys acc ++ k0 :: keys rest).Nodup := by
        simpa [keys] using h
      rw [List.nodup_append] at hnd
      exact hnd.2.2 hk (List.mem_cons_self _ _)
    rw [List.foldl_cons]
    simp only [set_of_not_mem_keys acc k0 w hk0]
    have h2 : (keys ((acc ++ [(k0, w)]) ++ rest)).Nodup := by
      simpa [List.append_assoc] using h
    rw [ih _ h2]
    simp

theorem foldl_set_of_agreeing {α : Type} (l m : List (String × α))
    (h : ∀ e ∈ l, lookup m e.1 = some e.2) : l.foldl (fun r e => set r e.1 e.2) m = m := by
  induction l with
  | nil => rfl
  | cons e rest ih =>
    rw [List.foldl_cons, set_of_lookup_eq_some m e.1 e.2 (h e (List.mem_cons_self _ _))]
    exact ih (fun e2 he2 => h e2 (List.mem_cons_of_mem _ he2))

theorem MergeStringMaps_pair_idempotent (a b : StrEntries) :
    MergeStringMaps [MergeStringMaps [a, b], b] = MergeStringMaps [a, b] := by
  have hnd := nodup_keys_MergeStringMaps_pair a b
  have hstep : MergeStringMaps [MergeStringMaps [a, b], b]
      = (rangeEntries b).foldl (fun r e => set r e.1 e.2)
          ((rangeEntries (MergeStringMaps [a, b])).foldl (fun r e => set r e.1 e.2) []) := by
    conv_lhs => unfold MergeStringMaps
    simp only [List.foldl_cons, List.foldl_nil]
    rfl
  rw [hstep, rangeEntries_of_nodup _ hnd,
    foldl_set_append_of_nodup _ [] (by simpa using hnd), List.nil_append]
  apply foldl_set_of_agreeing
  intro e he
  rw [lookup_MergeStringMaps_pair]
  have hl : lookup (rangeEntries b) e.1 = some e.2 :=
    (lookup_eq_some_iff_mem _ (rangeEntries_keys_nodup b) e.1 e.2).mpr he
  rw [lookup_rangeEntries] at hl
  rw [hl]

/-- C13. For every existing annotation map `a`, every annotation prefix and
every pattern `p`, merging the annotations of `p` into the result of merging
them into `a` gives the same map as merging them once: the two results are
equal, and so hold the same value under every key and have the same keys. -/
theorem MergeStringMaps_additional_idempotent (a : StrEntries) (annotationPrefix : String)
    (p : PatternFile) :
    MergeStringMaps
        [MergeStringMaps [a, getAdditionalAnnotations annotationPrefix p],
          getAdditionalAnnotations annotationPrefix p]
      = MergeStringMaps [a, getAdditionalAnnotations annotationPrefix p]
    ∧ (∀ k : String,
        lookup (MergeStringMaps
            [MergeStringMaps [a, getAdditionalAnnotations annotationPrefix p],
              getAdditionalAnnotations annotationPrefix p]) k
          = lookup (MergeStringMaps [a, getAdditionalAnnotations annotationPrefix p]) k)
    ∧ (∀ k : String,
        k ∈ keys (MergeStringMaps
            [MergeStringMaps [a, getAdditionalAnnotations annotationPrefix p],
              getAdditionalAnnotations annotationPrefix p])
          ↔ k ∈ keys (MergeStringMaps [a, getAdditionalAnnotations annotationPrefix p])) := by
  have h := MergeStringMaps_pair_idempotent a (getAdditionalAnnotations annotationPrefix p)
  refine ⟨h, ?_, ?_⟩
  · intro k
    rw [h]
  · intro k
    rw [h]

/-! ## Filtering of annotation-only components: properties -/

theorem foldl_append_filter (l acc : List ComponentDefinition) :
    l.foldl (fun components component =>
        if !component.Metadata.IsAnnotation then components ++ [component] else components) acc
      = acc ++ l.filter (fun component => !component.Metadata.IsAnnotation) := by
  induction l generalizing acc with
  | nil => simp
  | cons c rest ih =>
    rw [List.foldl_cons, ih]
    by_cases h : c.Metadata.IsAnnotation = true
    · simp [h]
    · simp [h]

/-- C14. For every pattern, the components after `processAnnotations` are
the components of the pattern that are not marked as annotations, in their
original order (a sub-list of the original list): a component is in the
result exactly when it is in the original list and is not an annotation, and
the name and the id of the pattern are unchanged. -/
theorem processAnnotations_filters (pattern : PatternFile) :
    (processAnnotations pattern).Components
        = pattern.Components.filter (fun component => !component.Metadata.IsAnnotation)
    ∧ (processAnnotations pattern).Components.Sublist pattern.Components
    ∧ (∀ component : ComponentDefinition,
        component ∈ (processAnnotations pattern).Components
          ↔ (component ∈ pattern.Components ∧ component.Metadata.IsAnnotation = false))
    ∧ (processAnnotations pattern).Name = pattern.Name
    ∧ (processAnnotations pattern).Id = pattern.Id := by
  have h : (processAnnotations pattern).Components
      = pattern.Components.filter (fun component => !component.Metadata.IsAnnotation) := by
    unfold processAnnotations
    simp only [foldl_append_filter, List.nil_append]
  refine ⟨h, ?_, ?_, rfl, rfl⟩
  · rw [h]
    exact List.filter_sublist _
  · intro component
    rw [h, List.mem_filter]
    simp

/-- C14, at a concrete input: of the components `web`, `note` and `db`, the
annotation-only `note` is removed and `web` and `db` stay, in that order. -/
theorem processAnnotations_filters_witness :
    (processAnnotations exampleAnnotatedPattern).Components = [examplePod, exampleDb] :=
  (processAnnotations_filters exampleAnnotatedPattern).1

/-! ## Status response: success together with an error -/

/-- C19, at the failing input. For the body of the empty JSON object, which
parses and has no `kind`, `formatDryRunResponse` returns the parsed map,
`success = true` and a `DryRunError`: after setting the error the function
goes on to the test of `status` instead of returning. The same holds for the
body `null`. -/
theorem formatDryRunResponse_success_with_error :
    formatDryRunResponse exampleLib emptyObjectBody (some (GoErr.statusError "Failure"))
        = { st := some [], success := true,
            err := some (GoErr.errDryRun
              (GoErr.errorf "nil response to dry run request to Kubernetes") "") }
    ∧ formatDryRunResponse exampleLib nullBody (some (GoErr.statusError "Failure"))
        = { st := none, success := true,
            err := some (GoErr.errDryRun
              (GoErr.errorf "nil response to dry run request to Kubernetes") "") } :=
  ⟨rfl, rfl⟩

/-! ## Manifest applier and dry-run helper: properties -/

theorem castString_of_not_string (castError : Value → GoErr) (v : Value)
    (h : ∀ s : String, v ≠ Value.str s) : castString castError v = ("", some (castError v)) := by
  cases v with
  | str s => exact absurd rfl (h s)
  | _ => rfl

theorem index_of_lookup_none (m : Entries) (k : String) (h : lookup m k = none) :
    index m k = Value.nil := by
  unfold index
  rw [h]

theorem index_of_lookup_some (m : Entries) (k : String) (v : Value) (h : lookup m k = some v) :
    index m k = v := by
  unfold index
  rw [h]

/-- C15. For every component whose configuration has no `namespace` entry or
whose `namespace` value is not a string, and for either value of the delete
flag, `Deploy` returns a non-nil error and makes no call of the apply/delete
primitive; the error is the wrapped extraction error whenever the resource
serialises (when it does not, it is the error of the serialiser, which
`Deploy` returns first). For every component whose `namespace` is a string and
whose resource serialises, `Deploy` makes exactly one call of the primitive,
with the manifest, that namespace, `Update = true` and `Delete = isDel`. -/
theorem Deploy_namespace (D : DeployEnv) (comp : ComponentDefinition) (isDel : Bool) :
    ((lookup comp.config "namespace" = none
        ∨ ∃ v, lookup comp.config "namespace" = some v ∧ ∀ s : String, v ≠ Value.str s) →
      (Deploy D comp isDel).1 ≠ none
      ∧ (Deploy D comp isDel).2 = []
      ∧ (∀ manifest : Bytes,
          D.yamlMarshal (createK8sResourceStructure comp) = (manifest, none) →
          (Deploy D comp isDel).1
            = some (errorsWrapf (D.castError (index comp.config "namespace"))
                "unable to extract namespace from component configuration")))
    ∧ (∀ (nspace : String) (manifest : Bytes),
        lookup comp.config "namespace" = some (Value.str nspace) →
        D.yamlMarshal (createK8sResourceStructure comp) = (manifest, none) →
        (Deploy D comp isDel).2
          = [{ manifest := manifest,
               options := { Namespace := nspace, Update := true, Delete := isDel } }]) := by
  constructor
  · intro h
    have hns : ∀ s : String, index comp.config "namespace" ≠ Value.str s := by
      rcases h with h | ⟨v, hv, hs⟩
      · intro s
        rw [index_of_lookup_none _ _ h]
        exact fun hc => Value.noConfusion hc
      · intro s
        rw [index_of_lookup_some _ _ v hv]
        exact hs s
    have hcast := castString_of_not_string D.castError _ hns
    rcases hm : D.yamlMarshal (createK8sResourceStructure comp) with ⟨manifest, _ | e⟩
    · refine ⟨?_, ?_, ?_⟩
      · unfold Deploy
        simp [hm, hcast]
      · unfold Deploy
        simp [hm, hcast]
      · intro manifest2 _
        unfold Deploy
        simp [hm, hcast]
    · refine ⟨?_, ?_, ?_⟩
      · unfold Deploy
        simp [hm]
      · unfold Deploy
        simp [hm]
      · intro manifest2 h2
        simp at h2
  · intro nspace manifest hns hm
    have hidx : index comp.config "namespace" = Value.str nspace :=
      index_of_lookup_some _ _ _ hns
    unfold Deploy
    simp only [hm, hidx, castString]
    cases D.ApplyManifest manifest { Namespace := nspace, Update := true, Delete := isDel } with
    | none => rfl
    | some err =>
      simp only
      split <;> rfl

/-- C15, at concrete inputs: a component with no `namespace`, a component
whose `namespace` is a number, and the example Pod in the namespace `default`
with the delete flag set. -/
theorem Deploy_namespace_witness :
    (Deploy exampleDeployEnv exampleNoNamespace false).1
        = some (GoErr.other
            "unable to extract namespace from component configuration: type assertion failed")
    ∧ (Deploy exampleDeployEnv exampleNoNamespace false).2 = []
    ∧ (Deploy exampleDeployEnv exampleBadNamespace true).2 = []
    ∧ (Deploy exampleDeployEnv examplePod true).2
        = [{ manifest := podBody,
             options := { Namespace := "default", Update := true, Delete := true } }] :=
  ⟨((Deploy_namespace exampleDeployEnv exampleNoNamespace false).1 (Or.inl rfl)).2.2 podBody rfl,
   ((Deploy_namespace exampleDeployEnv exampleNoNamespace false).1 (Or.inl rfl)).2.1,
   ((Deploy_namespace exampleDeployEnv exampleBadNamespace true).1
      (Or.inr ⟨Value.num 7, rfl, fun _ h => Value.noConfusion h⟩)).2.1,
   (Deploy_namespace exampleDeployEnv examplePod true).2 "default" podBody rfl rfl⟩

theorem index_createK8sResourceStructure_kind (comp : ComponentDefinition) :
    index (createK8sResourceStructure comp) "kind" = Value.str comp.Component.Kind := by
  apply index_of_lookup_some
  unfold createK8sResourceStructure createK8sResourceStructureIn
  rw [lookup_foldl_copyEntry_reserved _ _ "kind" (by decide)]
  simp [initialResource, lookup]

theorem index_createK8sResourceStructure_apiVersion (comp : ComponentDefinition) :
    index (createK8sResourceStructure comp) "apiVersion"
      = Value.str comp.Component.Version := by
  apply index_of_lookup_some
  unfold createK8sResourceStructure createK8sResourceStructureIn
  rw [lookup_foldl_copyEntry_reserved _ _ "apiVersion" (by decide)]
  rfl

/-- The results of `dryRun` when the kind or the API version is the empty
string. -/
theorem dryRun_of_empty_field (L : Lib) (rClient : RestClient) (k8sResource : Entries)
    (nspace : String)
    (h : index k8sResource "kind" = Value.str "" ∨ index k8sResource "apiVersion" = Value.str "") :
    dryRun L rClient k8sResource nspace
      = (some { st := none, success := false,
                err := some (ErrDryRun (fmtErrorf "invalid resource or namespace not provided")
                  "\"kind\" and \"apiVersion\" cannot be empty") }, []) := by
  unfold dryRun
  rcases h with h | h
  · rw [h]
    simp [eqStr_str]
  · rw [h]
    simp [eqStr_str]

/-- On the resource built from a component, `dryRun` does not abort. -/
theorem dryRun_createK8sResourceStructure_ne_none (L : Lib) (rClient : RestClient)
    (comp : ComponentDefinition) (nspace : String) :
    (dryRun L rClient (createK8sResourceStructure comp) nspace).1 ≠ none := by
  by_cases hk : comp.Component.Kind = ""
  · rw [dryRun_of_empty_field L rClient _ nspace
      (Or.inl (by rw [index_createK8sResourceStructure_kind, hk]))]
    simp
  · by_cases hv : comp.Component.Version = ""
    · rw [dryRun_of_empty_field L rClient _ nspace
        (Or.inr (by rw [index_createK8sResourceStructure_apiVersion, hv]))]
      simp
    · rw [dryRun_of_string_fields L rClient _ nspace comp.Component.Version comp.Component.Kind
        (index_createK8sResourceStructure_kind comp) hk
        (index_createK8sResourceStructure_apiVersion comp) hv]
      rcases hm : L.jsonMarshal (createK8sResourceStructure comp) with ⟨data, _ | e⟩
      · simp only
        rcases hc : rClient (dryRunRequest
            (dryRunPath L comp.Component.Version nspace comp.Component.Kind) data)
          with ⟨resp, _ | e⟩
        · simp
        · cases e <;> simp
      · simp

/-- C18. For every component: when its configuration has no `namespace`
entry, `DryRunHelper` is `dryRun` on the resource built from the component
with the empty namespace, and every request it issues goes to the
cluster-scoped path; when the entry is a string, `DryRunHelper` is `dryRun`
with that namespace; when the entry is present and is not a string,
`DryRunHelper` returns a nil status, `success = false` and the wrapped
extraction error, and issues no request. -/
theorem DryRunHelper_namespace (L : Lib) (castError : Value → GoErr) (rClient : RestClient)
    (comp : ComponentDefinition) :
    (lookup comp.config "namespace" = none →
        DryRunHelper L castError rClient comp
          = dryRun L rClient (createK8sResourceStructure comp) ""
        ∧ ∀ req ∈ (DryRunHelper L castError rClient comp).2,
            req.absPath = "/" ++ (if '/' ∈ comp.Component.Version.data then "apis" else "api")
              ++ "/" ++ comp.Component.Version ++ "/" ++ L.toLower comp.Component.Kind ++ "s")
    ∧ (∀ nspace : String, lookup comp.config "namespace" = some (Value.str nspace) →
        DryRunHelper L castError rClient comp
          = dryRun L rClient (createK8sResourceStructure comp) nspace)
    ∧ (∀ v : Value, lookup comp.config "namespace" = some v → (∀ s : String, v ≠ Value.str s) →
        DryRunHelper L castError rClient comp
          = (some { st := none, success := false,
                    err := some (errorsWrapf (castError v)
                      "unable to extract namespace from component configuration") }, [])) := by
  refine ⟨?_, ?_, ?_⟩
  · intro h
    have heq : DryRunHelper L castError rClient comp
        = dryRun L rClient (createK8sResourceStructure comp) "" := by
      unfold DryRunHelper
      simp only [h]
    refine ⟨heq, ?_⟩
    intro req hreq
    rw [heq] at hreq
    by_cases hk : comp.Component.Kind = ""
    · rw [dryRun_of_empty_field L rClient _ ""
        (Or.inl (by rw [index_createK8sResourceStructure_kind, hk]))] at hreq
      simp at hreq
    · by_cases hv : comp.Component.Version = ""
      · rw [dryRun_of_empty_field L rClient _ ""
          (Or.inr (by rw [index_createK8sResourceStructure_apiVersion, hv]))] at hreq
        simp at hreq
      · rw [dryRun_requests L rClient _ "" comp.Component.Version comp.Component.Kind
          (index_createK8sResourceStructure_kind comp) hk
          (index_createK8sResourceStructure_apiVersion comp) hv] at hreq
        rcases hm : L.jsonMarshal (createK8sResourceStructure comp) with ⟨data, _ | e⟩
        · rw [hm] at hreq
          simp only [List.mem_singleton] at hreq
          subst hreq
          rw [dryRunPath_eq_specPath]
          simp [dryRunRequest, specPath]
        · rw [hm] at hreq
          simp at hreq
  · intro nspace h
    unfold DryRunHelper
    simp only [h, castString]
  · intro v h hs
    unfold DryRunHelper
    simp only [h, castString_of_not_string castError v hs]

/-- C18, at concrete inputs: a component with no `namespace` is validated at
the cluster-scoped path, the example Pod in its namespace `default`, and a
component whose `namespace` is a number is rejected without a request. -/
theorem DryRunHelper_namespace_witness :
    (DryRunHelper exampleLib exampleDeployEnv.castError acceptingClient exampleNoNamespace).2
        = [dryRunRequest "/api/v1/namespaces" podBody]
    ∧ (DryRunHelper exampleLib exampleDeployEnv.castError acceptingClient examplePod).2
        = [dryRunRequest "/api/v1/namespaces/default/pods" podBody]
    ∧ DryRunHelper exampleLib exampleDeployEnv.castError acceptingClient exampleBadNamespace
        = (some { st := none, success := false,
                  err := some (GoErr.other
                    "unable to extract namespace from component configuration: type assertion failed") },
            []) :=
  ⟨congrArg Prod.snd ((DryRunHelper_namespace exampleLib exampleDeployEnv.castError
      acceptingClient exampleNoNamespace).1 rfl).1,
   congrArg Prod.snd ((DryRunHelper_namespace exampleLib exampleDeployEnv.castError
      acceptingClient examplePod).2.1 "default" rfl),
   (DryRunHelper_namespace exampleLib exampleDeployEnv.castError acceptingClient
      exampleBadNamespace).2.2 (Value.num 7) rfl (fun _ h => Value.noConfusion h)⟩

/-- C20. For every component, the resource built by
`createK8sResourceStructure` has a string under `kind` and under `apiVersion`
(the typed kind and version), so neither `dryRun` on that resource nor
`DryRunHelper` aborts, for every namespace, client and library. When the kind
or the version is the empty string `dryRun` returns the input error and issues
no request; otherwise it goes on to serialise the resource and, when the
resource serialises, issues the one request to the path of the
specification. -/
theorem dryRun_on_built_resource_never_aborts (L : Lib) (castError : Value → GoErr)
    (rClient : RestClient) (comp : ComponentDefinition) (nspace : String) :
    index (createK8sResourceStructure comp) "kind" = Value.str comp.Component.Kind
    ∧ index (createK8sResourceStructure comp) "apiVersion" = Value.str comp.Component.Version
    ∧ (dryRun L rClient (createK8sResourceStructure comp) nspace).1 ≠ none
    ∧ (DryRunHelper L castError rClient comp).1 ≠ none
    ∧ ((comp.Component.Kind = "" ∨ comp.Component.Version = "") →
        dryRun L rClient (createK8sResourceStructure comp) nspace
          = (some { st := none, success := false,
                    err := some (ErrDryRun
                      (fmtErrorf "invalid resource or namespace not provided")
                      "\"kind\" and \"apiVersion\" cannot be empty") }, []))
    ∧ (comp.Component.Kind ≠ "" → comp.Component.Version ≠ "" →
        ∀ data : Bytes, L.jsonMarshal (createK8sResourceStructure comp) = (data, none) →
          (dryRun L rClient (createK8sResourceStructure comp) nspace).2
            = [dryRunRequest
                (specPath L.toLower comp.Component.Version nspace comp.Component.Kind) data]) := by
  refine ⟨index_createK8sResourceStructure_kind comp,
    index_createK8sResourceStructure_apiVersion comp,
    dryRun_createK8sResourceStructure_ne_none L rClient comp nspace, ?_, ?_, ?_⟩
  · unfold DryRunHelper
    cases hl : lookup comp.config "namespace" with
    | none => exact dryRun_createK8sResourceStructure_ne_none L rClient comp ""
    | some v =>
      cases v with
      | str s =>
        simp only [castString]
        exact dryRun_createK8sResourceStructure_ne_none L rClient comp s
      | _ => simp [castString]
  · intro h
    apply dryRun_of_empty_field
    rcases h with h | h
    · exact Or.inl (by rw [index_createK8sResourceStructure_kind, h])
    · exact Or.inr (by rw [index_createK8sResourceStructure_apiVersion, h])
  · intro hk hv data hm
    rw [dryRun_requests L rClient _ nspace comp.Component.Version comp.Component.Kind
      (index_createK8sResourceStructure_kind comp) hk
      (index_createK8sResourceStructure_apiVersion comp) hv, hm, dryRunPath_eq_specPath]

/-- C20, at a concrete input: the example Pod, whose configuration has a stray
`kind`, is dry-run as a Pod at the path of its namespace. -/
theorem dryRun_on_built_resource_never_aborts_witness :
    (dryRun exampleLib acceptingClient (createK8sResourceStructure examplePod) "default").2
      = [dryRunRequest "/api/v1/namespaces/default/pods" podBody] :=
  (dryRun_on_built_resource_never_aborts exampleLib exampleDeployEnv.castError acceptingClient
    examplePod "default").2.2.2.2.2 (by decide) (by decide) podBody rfl

/-! ## Provisioning stage: the run of the callback -/

theorem str_append_left_cancel (p a b : String) (h : p ++ a = p ++ b) : a = b := by
  have hd := congrArg String.data h
  simp only [String.data_append] at hd
  exact String.ext (List.append_cancel_left hd)

theorem str_append_right_cancel (a b q : String) (h : a ++ q = b ++ q) : a = b := by
  have hd := congrArg String.data h
  simp only [String.data_append] at hd
  exact String.ext (List.append_cancel_right hd)

theorem provisionCallback_of_nil_configuration {σ : Type} (E : Env σ) (s : StageState σ)
    (name : String) (component0 : ComponentDefinition)
    (h : handedPair E s.pattern component0 = none) :
    (provisionCallback E s name component0).1 = { s with aborted := true } := by
  unfold handedPair at h
  unfold provisionCallback
  cases hc : (E.AssignAdditionalLabels component0).Configuration with
  | none => simp only [hc]
  | some cfg => rw [hc] at h; cases h

theorem provisionCallback_of_failure {σ : Type} (E : Env σ) (s : StageState σ)
    (name : String) (component0 : ComponentDefinition) (ccp : CompConfigPair)
    (msg : String) (err : GoErr) (act1 : σ)
    (h : handedPair E s.pattern component0 = some ccp)
    (hp : E.Provision s.act ccp = ((msg, some err), act1)) :
    (provisionCallback E s name component0).1
      = { s with act := act1, events := s.events ++ [Event.provision ccp],
                 errs := s.errs ++ [err] } := by
  unfold handedPair at h
  unfold provisionCallback
  cases hc : (E.AssignAdditionalLabels component0).Configuration with
  | none => rw [hc] at h; cases h
  | some cfg =>
    rw [hc] at h
    simp only [Option.some.injEq] at h
    subst h
    simp only [mergedAnnotations] at hp ⊢
    simp only [hc, hp]

theorem provisionCallback_of_success {σ : Type} (E : Env σ) (s : StageState σ)
    (name : String) (component0 : ComponentDefinition) (ccp : CompConfigPair)
    (msg : String) (act1 : σ) (store : Entries)
    (h : handedPair E s.pattern component0 = some ccp)
    (hp : E.Provision s.act ccp = ((msg, none), act1))
    (hs : s.other = some store) :
    (provisionCallback E s name component0).1
      = { s with act := act1, events := s.events ++ [Event.provision ccp],
                 other := some (set store (name ++ ProvisionSuffixKey) (Value.str msg)) } := by
  unfold handedPair at h
  unfold provisionCallback
  cases hc : (E.AssignAdditionalLabels component0).Configuration with
  | none => rw [hc] at h; cases h
  | some cfg =>
    rw [hc] at h
    simp only [Option.some.injEq] at h
    subst h
    simp only [mergedAnnotations] at hp ⊢
    simp only [hc, hp, hs]

theorem provisionCallback_of_success_nil_store {σ : Type} (E : Env σ) (s : StageState σ)
    (name : String) (component0 : ComponentDefinition) (ccp : CompConfigPair)
    (msg : String) (act1 : σ)
    (h : handedPair E s.pattern component0 = some ccp)
    (hp : E.Provision s.act ccp = ((msg, none), act1))
    (hs : s.other = none) :
    (provisionCallback E s name component0).1
      = { s with act := act1, events := s.events ++ [Event.provision ccp], aborted := true } := by
  unfold handedPair at h
  unfold provisionCallback
  cases hc : (E.AssignAdditionalLabels component0).Configuration with
  | none => rw [hc] at h; cases h
  | some cfg =>
    rw [hc] at h
    simp only [Option.some.injEq] at h
    subst h
    simp only [mergedAnnotations] at hp ⊢
    simp only [hc, hp, hs]

theorem foldl_callback_of_aborted {σ : Type} (E : Env σ)
    (sched : List (String × ComponentDefinition)) (s : StageState σ) (h : s.aborted = true) :
    sched.foldl (fun st e => if st.aborted then st else (provisionCallback E st e.1 e.2).1) s
      = s := by
  induction sched with
  | nil => rfl
  | cons e rest ih =>
    rw [List.foldl_cons]
    simp only [h, if_true]
    exact ih

theorem successes_cons_ok (r : ActionResult) (rest : List ActionResult) (h : r.err = none) :
    successes (r :: rest) = (r.name, r.msg) :: successes rest := by
  simp [successes, List.filterMap_cons, h]

theorem successes_cons_fail (r : ActionResult) (rest : List ActionResult) (e : GoErr)
    (h : r.err = some e) : successes (r :: rest) = successes rest := by
  simp [successes, List.filterMap_cons, h]

/-- The state after `plan.Execute` ran the callback over a schedule, from a
state that has not aborted and whose Result Store is allocated. -/
theorem foldl_callback_run {σ : Type} (E : Env σ)
    (sched : List (String × ComponentDefinition)) (s : StageState σ) (store : Entries)
    (ha : s.aborted = false) (hs : s.other = some store) :
    (sched.foldl (fun st e => if st.aborted then st else (provisionCallback E st e.1 e.2).1)
        s).other
      = some (storeAfter store (successes (actionResults E s.pattern s.act sched)))
    ∧ (sched.foldl (fun st e => if st.aborted then st else (provisionCallback E st e.1 e.2).1)
        s).events
      = s.events ++ (actionResults E s.pattern s.act sched).map (fun r => Event.provision r.ccp)
    ∧ (sched.foldl (fun st e => if st.aborted then st else (provisionCallback E st e.1 e.2).1)
        s).errs
      = s.errs ++ (actionResults E s.pattern s.act sched).filterMap (fun r => r.err)
    ∧ ((sched.foldl (fun st e => if st.aborted then st else (provisionCallback E st e.1 e.2).1)
        s).aborted = false
        ↔ (actionResults E s.pattern s.act sched).length = sched.length) := by
  induction sched generalizing s store with
  | nil =>
    simp [actionResults, successes, storeAfter, hs, ha]
  | cons e rest ih =>
    obtain ⟨name, component0⟩ := e
    rw [List.foldl_cons]
    simp only [ha, Bool.false_eq_true, if_false]
    cases hh : handedPair E s.pattern component0 with
    | none =>
      rw [provisionCallback_of_nil_configuration E s name component0 hh,
        foldl_callback_of_aborted E rest _ rfl]
      simp [actionResults, hh, successes, storeAfter, hs]
    | some ccp =>
      rcases hp : E.Provision s.act ccp with ⟨⟨msg, _ | err⟩, act1⟩
      · -- the action succeeded
        rw [provisionCallback_of_success E s name component0 ccp msg act1 store hh hp hs]
        have hres : actionResults E s.pattern s.act ((name, component0) :: rest)
            = { name := name, ccp := ccp, msg := msg, err := none }
                :: actionResults E s.pattern act1 rest := by
          simp [actionResults, hh, hp]
        obtain ⟨h1, h2, h3, h4⟩ := ih
          { s with act := act1, events := s.events ++ [Event.provision ccp],
                   other := some (set store (name ++ ProvisionSuffixKey) (Value.str msg)) }
          (set store (name ++ ProvisionSuffixKey) (Value.str msg)) ha rfl
        rw [hres]
        refine ⟨?_, ?_, ?_, ?_⟩
        · rw [h1, successes_cons_ok _ _ rfl]
          rfl
        · rw [h2]
          simp
        · rw [h3]
          simp
        · rw [h4]
          simp
      · -- the action failed
        rw [provisionCallback_of_failure E s name component0 ccp msg err act1 hh hp]
        have hres : actionResults E s.pattern s.act ((name, component0) :: rest)
            = { name := name, ccp := ccp, msg := msg, err := some err }
                :: actionResults E s.pattern act1 rest := by
          simp [actionResults, hh, hp]
        obtain ⟨h1, h2, h3, h4⟩ := ih
          { s with act := act1, events := s.events ++ [Event.provision ccp],
                   errs := s.errs ++ [err] } store ha hs
        rw [hres]
        refine ⟨?_, ?_, ?_, ?_⟩
        · rw [h1, successes_cons_fail _ _ err rfl]
        · rw [h2]
          simp
        · rw [h3]
          simp
        · rw [h4]
          simp

theorem lookup_storeAfter_of_other_key (store : Entries) (succ : List (String × String))
    (key : String)
    (h : ∀ name msg, (name, msg) ∈ succ → key ≠ name ++ ProvisionSuffixKey) :
    lookup (storeAfter store succ) key = lookup store key := by
  induction succ generalizing store with
  | nil => rfl
  | cons e rest ih =>
    obtain ⟨n0, m0⟩ := e
    have hrest : ∀ name msg, (name, msg) ∈ rest → key ≠ name ++ ProvisionSuffixKey :=
      fun name msg hm => h name msg (List.mem_cons_of_mem _ hm)
    have h0 : ¬ n0 ++ ProvisionSuffixKey = key :=
      fun hk => h n0 m0 (List.mem_cons_self _ _) hk.symm
    unfold storeAfter
    rw [List.foldl_cons]
    have := ih (set store (n0 ++ ProvisionSuffixKey) (Value.str m0)) hrest
    unfold storeAfter at this
    rw [this, lookup_set, if_neg h0]

theorem lookup_storeAfter_of_success (store : Entries) (succ : List (String × String))
    (hnd : (succ.map Prod.fst).Nodup) (name msg : String) (hm : (name, msg) ∈ succ) :
    lookup (storeAfter store succ) (name ++ ProvisionSuffixKey) = some (Value.str msg) := by
  induction succ generalizing store with
  | nil => cases hm
  | cons e rest ih =>
    obtain ⟨n0, m0⟩ := e
    have hnd2 : n0 ∉ rest.map Prod.fst ∧ (rest.map Prod.fst).Nodup := by
      simpa [List.nodup_cons] using hnd
    have hstep : storeAfter store ((n0, m0) :: rest)
        = storeAfter (set store (n0 ++ ProvisionSuffixKey) (Value.str m0)) rest := rfl
    rw [hstep]
    rcases List.mem_cons.mp hm with heq | hin
    · have hn : name = n0 := congrArg Prod.fst heq
      have hmsg : msg = m0 := congrArg Prod.snd heq
      subst hn
      subst hmsg
      rw [lookup_storeAfter_of_other_key]
      · rw [lookup_set, if_pos rfl]
      · intro n2 m2 h2 hk
        have : name = n2 := str_append_right_cancel _ _ _ hk
        subst this
        exact hnd2.1 (List.mem_map.mpr ⟨(name, m2), h2, rfl⟩)
    · exact ih _ hnd2.2 hin

theorem actionResults_names_sublist {σ : Type} (E : Env σ) (pattern : PatternFile)
    (sched : List (String × ComponentDefinition)) (act : σ) :
    ((actionResults E pattern act sched).map ActionResult.name).Sublist
      (sched.map Prod.fst) := by
  induction sched generalizing act with
  | nil => simp [actionResults]
  | cons e rest ih =>
    obtain ⟨name, component0⟩ := e
    cases hh : handedPair E pattern component0 with
    | none => simp [actionResults, hh]
    | some ccp =>
      simp only [actionResults, hh, List.map_cons]
      exact (ih _).cons₂ _

theorem successes_names_sublist (results : List ActionResult) :
    ((successes results).map Prod.fst).Sublist (results.map ActionResult.name) := by
  induction results with
  | nil => simp [successes]
  | cons r rest ih =>
    cases hr : r.err with
    | none =>
      rw [successes_cons_ok r rest hr]
      simp only [List.map_cons]
      exact ih.cons₂ _
    | some e =>
      rw [successes_cons_fail r rest e hr]
      simp only [List.map_cons]
      exact ih.cons _

theorem mem_successes_iff (results : List ActionResult) (name msg : String) :
    (name, msg) ∈ successes results
      ↔ ∃ r ∈ results, r.err = none ∧ r.name = name ∧ r.msg = msg := by
  unfold successes
  rw [List.mem_filterMap]
  constructor
  · rintro ⟨r, hr, h⟩
    cases he : r.err with
    | none =>
      rw [he] at h
      simp only [Option.some.injEq, Prod.mk.injEq] at h
      exact ⟨r, hr, he, h.1, h.2⟩
    | some e =>
      rw [he] at h
      cases h
  · rintro ⟨r, hr, he, hn, hm⟩
    refine ⟨r, hr, ?_⟩
    rw [he, hn, hm]

theorem mem_failures_iff (results : List ActionResult) (name : String) :
    name ∈ failures results ↔ ∃ r ∈ results, r.err ≠ none ∧ r.name = name := by
  unfold failures
  rw [List.mem_filterMap]
  constructor
  · rintro ⟨r, hr, h⟩
    cases he : r.err with
    | none =>
      rw [he] at h
      cases h
    | some e =>
      rw [he] at h
      simp only [Option.some.injEq] at h
      exact ⟨r, hr, by simp [he], h⟩
  · rintro ⟨r, hr, he, hn⟩
    refine ⟨r, hr, ?_⟩
    cases h2 : r.err with
    | none => exact absurd h2 he
    | some e => simp [hn]

theorem successes_length_add_failures_length (results : List ActionResult) :
    (successes results).length + (failures results).length = results.length := by
  induction results with
  | nil => rfl
  | cons r rest ih =>
    cases hr : r.err with
    | none =>
      have h1 : successes (r :: rest) = (r.name, r.msg) :: successes rest :=
        successes_cons_ok r rest hr
      have h2 : failures (r :: rest) = failures rest := by
        simp [failures, List.filterMap_cons, hr]
      rw [h1, h2]
      simp only [List.length_cons]
      omega
    | some e =>
      have h1 : successes (r :: rest) = successes rest := successes_cons_fail r rest e hr
      have h2 : failures (r :: rest) = r.name :: failures rest := by
        simp [failures, List.filterMap_cons, hr]
      rw [h1, h2]
      simp only [List.length_cons]
      omega

theorem name_eq_of_nodup_names (results : List ActionResult)
    (hnd : (results.map ActionResult.name).Nodup) (r1 r2 : ActionResult)
    (h1 : r1 ∈ results) (h2 : r2 ∈ results) (hn : r1.name = r2.name) : r1 = r2 :=
  List.inj_on_of_nodup_map hnd h1 h2 hn

theorem actionResults_length_of_allocated {σ : Type} (E : Env σ) (pattern : PatternFile)
    (sched : List (String × ComponentDefinition)) (act : σ)
    (h : ∀ e ∈ sched, (E.AssignAdditionalLabels e.2).Configuration ≠ none) :
    (actionResults E pattern act sched).length = sched.length := by
  induction sched generalizing act with
  | nil => rfl
  | cons e rest ih =>
    obtain ⟨name, component0⟩ := e
    have h0 := h (name, component0) (List.mem_cons_self _ _)
    cases hc : (E.AssignAdditionalLabels component0).Configuration with
    | none => exact absurd hc h0
    | some cfg =>
      have hh : ∃ ccp, handedPair E pattern component0 = some ccp := by
        unfold handedPair
        simp only [hc]
        exact ⟨_, rfl⟩
      obtain ⟨ccp, hh⟩ := hh
      simp only [actionResults, hh, List.length_cons]
      rw [ih _ (fun e he => h e (List.mem_cons_of_mem _ he))]

theorem Provision_of_feasible_plan {σ : Type} (E : Env σ) (s : StageState σ) (hasNext : Bool)
    (plan : Plan)
    (hplan : E.CreatePlan (processAnnotations s.pattern) E.IsDelete = (plan, none))
    (hf : plan.IsFeasible = true) :
    Provision E s none hasNext
      = if (plan.Execute (provisionCallback E)
              { s with pattern := processAnnotations s.pattern, errs := [] }).aborted then
          plan.Execute (provisionCallback E)
            { s with pattern := processAnnotations s.pattern, errs := [] }
        else if hasNext then
          { plan.Execute (provisionCallback E)
              { s with pattern := processAnnotations s.pattern, errs := [] } with
            events := (plan.Execute (provisionCallback E)
                { s with pattern := processAnnotations s.pattern, errs := [] }).events
              ++ [Event.next (mergeErrors (plan.Execute (provisionCallback E)
                  { s with pattern := processAnnotations s.pattern, errs := [] }).errs)] }
        else
          plan.Execute (provisionCallback E)
            { s with pattern := processAnnotations s.pattern, errs := [] } := by
  unfold Provision
  simp only [hplan, hf]
  rfl

theorem filter_isProvision_map (results : List ActionResult) :
    (results.map (fun r => Event.provision r.ccp)).filter Event.isProvision
      = results.map (fun r => Event.provision r.ccp) := by
  induction results with
  | nil => rfl
  | cons r rest ih => simp [List.filter_cons, Event.isProvision, ih]

/-- C11. For every run of the stage with a feasible plan whose scheduled
components have pairwise distinct names, from a state whose Result Store is
allocated: the Result Store after the stage is the store before it updated
with the entry `<name>.isProvisioned -> msg` of each component whose
provisioning action succeeded with the message `msg`; it holds that message
under the key of each such component; every other key keeps the value it had
before, and so does the key `<name>.isProvisioned` of each component whose
action failed; the successes and the failures together are the invocations of
the action, which are the calls the stage makes of it; and when the
configuration of every scheduled component is allocated the action is invoked
for every scheduled component and the stage runs to its end. -/
theorem Provision_result_store {σ : Type} (E : Env σ) (s : StageState σ) (hasNext : Bool)
    (plan : Plan) (store : Entries)
    (hplan : E.CreatePlan (processAnnotations s.pattern) E.IsDelete = (plan, none))
    (hf : plan.IsFeasible = true)
    (hs : s.other = some store) (ha : s.aborted = false)
    (hnd : (plan.schedule.map Prod.fst).Nodup) :
    (Provision E s none hasNext).other
        = some (storeAfter store (successes (stageResults E s plan)))
    ∧ (∀ name msg : String, (name, msg) ∈ successes (stageResults E s plan) →
        lookup (storeAfter store (successes (stageResults E s plan)))
          (name ++ ProvisionSuffixKey) = some (Value.str msg))
    ∧ (∀ key : String,
        (∀ name msg : String, (name, msg) ∈ successes (stageResults E s plan) →
          key ≠ name ++ ProvisionSuffixKey) →
        lookup (storeAfter store (successes (stageResults E s plan))) key = lookup store key)
    ∧ (∀ name : String, name ∈ failures (stageResults E s plan) →
        lookup (storeAfter store (successes (stageResults E s plan)))
          (name ++ ProvisionSuffixKey) = lookup store (name ++ ProvisionSuffixKey))
    ∧ (successes (stageResults E s plan)).length + (failures (stageResults E s plan)).length
        = (stageResults E s plan).length
    ∧ (Provision E s none hasNext).events.filter Event.isProvision
        = s.events.filter Event.isProvision
          ++ (stageResults E s plan).map (fun r => Event.provision r.ccp)
    ∧ ((∀ e ∈ plan.schedule, (E.AssignAdditionalLabels e.2).Configuration ≠ none) →
        (stageResults E s plan).length = plan.schedule.length
        ∧ (Provision E s none hasNext).aborted = false) := by
  have hrun := foldl_callback_run E plan.schedule
    { s with pattern := processAnnotations s.pattern, errs := [] } store ha hs
  obtain ⟨h1, h2, _, h4⟩ := hrun
  have hres : actionResults E (processAnnotations s.pattern) s.act plan.schedule
      = stageResults E s plan := rfl
  simp only [hres] at h1 h2 h4
  have hprov := Provision_of_feasible_plan E s hasNext plan hplan hf
  have hnames : ((stageResults E s plan).map ActionResult.name).Nodup :=
    (actionResults_names_sublist E _ plan.schedule s.act).nodup hnd
  have hsucc : ((successes (stageResults E s plan)).map Prod.fst).Nodup :=
    (successes_names_sublist _).nodup hnames
  refine ⟨?_, ?_, ?_, ?_, ?_, ?_, ?_⟩
  · rw [hprov]
    unfold Plan.Execute
    split
    · exact h1
    · split
      · exact h1
      · exact h1
  · intro name msg hm
    exact lookup_storeAfter_of_success store _ hsucc name msg hm
  · intro key hkey
    exact lookup_storeAfter_of_other_key store _ key hkey
  · intro name hfail
    apply lookup_storeAfter_of_other_key
    intro n2 m2 h2m hk
    have hn : name = n2 := str_append_right_cancel _ _ _ hk
    subst hn
    obtain ⟨r1, hr1, he1, hn1⟩ := (mem_failures_iff _ _).mp hfail
    obtain ⟨r2, hr2, he2, hn2, _⟩ := (mem_successes_iff _ _ _).mp h2m
    have : r1 = r2 := name_eq_of_nodup_names _ hnames r1 r2 hr1 hr2 (hn1.trans hn2.symm)
    subst this
    exact he1 he2
  · exact successes_length_add_failures_length _
  · rw [hprov]
    unfold Plan.Execute
    split
    · rw [h2, List.filter_append, filter_isProvision_map]
    · split
      · simp only [h2, List.filter_append, filter_isProvision_map]
        simp [List.filter_cons, Event.isProvision]
      · rw [h2, List.filter_append, filter_isProvision_map]
  · intro hall
    have hlen := actionResults_length_of_allocated E (processAnnotations s.pattern)
      plan.schedule s.act hall
    refine ⟨hlen, ?_⟩
    have hna := h4.mpr hlen
    rw [hprov]
    unfold Plan.Execute
    simp only [hna, Bool.false_eq_true, if_false]
    split
    · rfl
    · exact hna

/-- C11, at a concrete input: the plan schedules `web` and `db`, the action
succeeds on `web` and fails on `db`, and the Result Store holds an entry of an
earlier run under the key of `db`. After the stage the store holds that entry
unchanged and the new entry of `web`. -/
theorem Provision_result_store_witness :
    (Provision (exampleEnv true none) exampleStateWithStore none true).other
      = some [("db.isProvisioned", Value.str "earlier"),
              ("web.isProvisioned", Value.str "provisioned")] :=
  (Provision_result_store (exampleEnv true none) exampleStateWithStore true
    { IsFeasible := true,
      schedule := (processAnnotations examplePattern).Components.map
        (fun c => (c.DisplayName, c)) }
    [("db.isProvisioned", Value.str "earlier")] rfl rfl rfl rfl (by decide)).1

theorem lookup_getAdditionalAnnotations (annotationPrefix : String) (pattern : PatternFile)
    (k : String) :
    lookup (getAdditionalAnnotations annotationPrefix pattern) k
      = if annotationPrefix ++ ".id" = k then some pattern.Id
        else if annotationPrefix ++ ".name" = k then some pattern.Name
        else none := by
  unfold getAdditionalAnnotations
  rw [lookup_set, lookup_set]
  rfl

theorem id_key_ne_name_key (annotationPrefix : String) :
    annotationPrefix ++ ".id" ≠ annotationPrefix ++ ".name" := by
  intro h
  have := str_append_left_cancel _ _ _ h
  exact absurd this (by decide)

/-- C17. For every component the callback is invoked on and every pattern:
when the configuration of the component (after the additional labels are
assigned) is allocated, the callback hands one pair to the provisioning
action, and the `annotations` entry of the configuration of the handed
component is the string map `mergedAnnotations`; when the configuration is the
nil map nothing is handed. That map holds the name of the pattern under
`<prefix>.name` and its id under `<prefix>.id`, whatever the component held
there, and under every other key what the existing annotations hold, these
being the `annotations` entry when it is a `map[string]string` and empty
otherwise; so when the entry was absent or of another type the keys of the
map are exactly the two synthesized ones. -/
theorem provisionCallback_hands_pattern_annotations {σ : Type} (E : Env σ) (s : StageState σ)
    (name : String) (component0 : ComponentDefinition) :
    (∀ cfg : Entries, (E.AssignAdditionalLabels component0).Configuration = some cfg →
        ∃ ccp : CompConfigPair,
          (provisionCallback E s name component0).1.events
              = s.events ++ [Event.provision ccp]
          ∧ index ccp.Component.config "annotations"
              = Value.strMap (mergedAnnotations E.MesheryAnnotationPrefix s.pattern
                  (E.AssignAdditionalLabels component0)))
    ∧ ((E.AssignAdditionalLabels component0).Configuration = none →
        (provisionCallback E s name component0).1.events = s.events)
    ∧ lookup (mergedAnnotations E.MesheryAnnotationPrefix s.pattern
          (E.AssignAdditionalLabels component0)) (E.MesheryAnnotationPrefix ++ ".name")
        = some s.pattern.Name
    ∧ lookup (mergedAnnotations E.MesheryAnnotationPrefix s.pattern
          (E.AssignAdditionalLabels component0)) (E.MesheryAnnotationPrefix ++ ".id")
        = some s.pattern.Id
    ∧ (∀ existing : StrEntries,
        index (E.AssignAdditionalLabels component0).config "annotations"
          = Value.strMap existing →
        ∀ k : String, k ≠ E.MesheryAnnotationPrefix ++ ".name" →
          k ≠ E.MesheryAnnotationPrefix ++ ".id" →
          lookup (mergedAnnotations E.MesheryAnnotationPrefix s.pattern
            (E.AssignAdditionalLabels component0)) k = lookup existing k)
    ∧ ((∀ existing : StrEntries,
          index (E.AssignAdditionalLabels component0).config "annotations"
            ≠ Value.strMap existing) →
        ∀ k : String,
          k ∈ keys (mergedAnnotations E.MesheryAnnotationPrefix s.pattern
              (E.AssignAdditionalLabels component0))
            ↔ (k = E.MesheryAnnotationPrefix ++ ".name"
                ∨ k = E.MesheryAnnotationPrefix ++ ".id")) := by
  have hmerged : ∀ k : String,
      lookup (mergedAnnotations E.MesheryAnnotationPrefix s.pattern
          (E.AssignAdditionalLabels component0)) k
        = if E.MesheryAnnotationPrefix ++ ".id" = k then some s.pattern.Id
          else if E.MesheryAnnotationPrefix ++ ".name" = k then some s.pattern.Name
          else lookup (castStrMap
            (index (E.AssignAdditionalLabels component0).config "annotations")) k := by
    intro k
    unfold mergedAnnotations
    rw [lookup_MergeStringMaps_pair, lookup_getAdditionalAnnotations]
    by_cases h1 : E.MesheryAnnotationPrefix ++ ".id" = k
    · simp [h1]
    · by_cases h2 : E.MesheryAnnotationPrefix ++ ".name" = k
      · simp [h1, h2]
      · simp [h1, h2]
  refine ⟨?_, ?_, ?_, ?_, ?_, ?_⟩
  · intro cfg hc
    have hh : ∃ ccp : CompConfigPair, handedPair E s.pattern component0 = some ccp
        ∧ ccp.Component.Configuration = some (set cfg "annotations"
            (Value.strMap (mergedAnnotations E.MesheryAnnotationPrefix s.pattern
              (E.AssignAdditionalLabels component0)))) := by
      unfold handedPair
      simp only [hc]
      exact ⟨_, rfl, rfl⟩
    obtain ⟨ccp, hh, hcfg⟩ := hh
    refine ⟨ccp, ?_, ?_⟩
    · rcases hp : E.Provision s.act ccp with ⟨⟨msg, _ | err⟩, act1⟩
      · cases hso : s.other with
        | some store =>
          rw [provisionCallback_of_success E s name component0 ccp msg act1 store hh hp hso]
        | none =>
          rw [provisionCallback_of_success_nil_store E s name component0 ccp msg act1 hh hp hso]
      · rw [provisionCallback_of_failure E s name component0 ccp msg err act1 hh hp]
    · apply index_of_lookup_some
      simp only [ComponentDefinition.config, hcfg]
      rw [lookup_set, if_pos rfl]
  · intro hc
    have hh : handedPair E s.pattern component0 = none := by
      unfold handedPair
      simp only [hc]
    rw [provisionCallback_of_nil_configuration E s name component0 hh]
  · rw [hmerged, if_neg (id_key_ne_name_key _), if_pos rfl]
  · rw [hmerged, if_pos rfl]
  · intro existing hex k hk1 hk2
    rw [hmerged, if_neg (fun h => hk2 h.symm), if_neg (fun h => hk1 h.symm), hex]
    rfl
  · intro hno k
    have hcast : castStrMap (index (E.AssignAdditionalLabels component0).config "annotations")
        = [] := by
      cases hv : index (E.AssignAdditionalLabels component0).config "annotations" with
      | strMap m => exact absurd hv (hno m)
      | _ => rfl
    rw [← lookup_isSome_iff_mem_keys, hmerged, hcast]
    by_cases h1 : E.MesheryAnnotationPrefix ++ ".id" = k
    · simp [h1]
    · by_cases h2 : E.MesheryAnnotationPrefix ++ ".name" = k
      · simp [h1, h2]
      · have h1b : ¬ k = E.MesheryAnnotationPrefix ++ ".id" := fun h => h1 h.symm
        have h2b : ¬ k = E.MesheryAnnotationPrefix ++ ".name" := fun h => h2 h.symm
        simp [h1, h2, h1b, h2b, lookup]

/-- C17, at a concrete input: the component `shop`, whose annotations are the
string map with the one entry `team -> shop`, is handed to the action with that
entry and the two annotations of the pattern. -/
theorem provisionCallback_hands_pattern_annotations_witness :
    (provisionCallback (exampleEnv true none) exampleState "shop" exampleNoNamespace).1.events
        = [Event.provision
            { Component :=
                { exampleNoNamespace with
                  Configuration := some
                    [("annotations", Value.strMap
                      [("team", "shop"), ("design.meshery.io.name", "shop"),
                       ("design.meshery.io.id", "0f0e0d0c-0b0a-0908-0706-050403020100")])] },
              Hosts := [("kubernetes", true)] }]
    ∧ lookup (mergedAnnotations "design.meshery.io" examplePattern exampleNoNamespace)
        "design.meshery.io.name" = some "shop"
    ∧ lookup (mergedAnnotations "design.meshery.io" examplePattern exampleNoNamespace) "team"
        = some "shop" :=
  ⟨rfl,
   (provisionCallback_hands_pattern_annotations (exampleEnv true none) exampleState "shop"
      exampleNoNamespace).2.2.1,
   (provisionCallback_hands_pattern_annotations (exampleEnv true none) exampleState "shop"
      exampleNoNamespace).2.2.2.2.1 [("team", "shop")] rfl "team" (by decide) (by decide)⟩

end Meshery
